import Mathlib

/-!
Shallow embedding of the StudyLion voicefix channel-link relay
(src/voicefix/cog.py) together with the small part of the external
cachetools library it relies on (cachetools.FIFOCache).

Conventions of the embedding:
* Discord snowflake ids are Nat.
* Message content is kept abstract as a String; attachments and embeds are
  not modelled (no claim quantifies over them).
* Outbound platform calls (webhook send, message edit/delete/reaction) are
  potentially failing network calls; their outcomes are supplied as an
  explicit environment argument, and the calls actually performed are
  returned as a list of effects.
* Python truthiness tests on optional ids (if message.webhook_id, if origid)
  are translated literally: None and 0 are falsy.
-/

/-- A bounded insertion-order-evicting map, translated from
cachetools.FIFOCache: an ordered association list of entries, oldest first,
plus the configured maxsize.  Setting an existing key overwrites its value
and moves it to the newest position (OrderedDict.move_to_end); setting a
fresh key at capacity evicts entries from the oldest end until there is
room.  The model assumes maxsize is positive, as in the cog (200 and 600). -/
structure FIFOCache (α : Type) where
  maxsize : Nat
  entries : List (Nat × α)
deriving Repr, DecidableEq

/-- Association-list lookup used both for the FIFO caches and for the plain
python dicts (channel_links, link_channels, hooks): the value of the first
entry with the key, if any. -/
def alookup {α : Type} (l : List (Nat × α)) (k : Nat) : Option α :=
  match l with
  | [] => none
  | p :: t => if p.1 == k then some p.2 else alookup t k

/-- Dictionary/cache membership test (python: key in d). -/
def akeys {α : Type} (l : List (Nat × α)) : List Nat :=
  l.map (fun p => p.1)

def FIFOCache.lookup {α : Type} (c : FIFOCache α) (k : Nat) : Option α :=
  alookup c.entries k

/-- cachetools FIFOCache setitem: overwrite-and-move-to-end for an existing
key, otherwise evict from the front until the new entry fits, then append. -/
def FIFOCache.insert {α : Type} (c : FIFOCache α) (k : Nat) (v : α) :
    FIFOCache α :=
  if c.entries.any (fun p => p.1 == k) then
    { c with entries := c.entries.filter (fun p => p.1 != k) ++ [(k, v)] }
  else
    { c with entries :=
        c.entries.drop (c.entries.length + 1 - c.maxsize) ++ [(k, v)] }

/-- Cache.pop(key, default): remove the entry for the key if present,
returning the stored value. -/
def FIFOCache.pop {α : Type} (c : FIFOCache α) (k : Nat) :
    Option α × FIFOCache α :=
  match alookup c.entries k with
  | some v => (some v, { c with entries := c.entries.filter (fun q => q.1 != k) })
  | none => (none, c)

/-- A platform message as far as the cog reads it: id, channel, text content
and the webhook-origin marker (discord.Message.webhook_id, None for ordinary
user messages). -/
structure Msg where
  id : Nat
  channelId : Nat
  content : String
  webhookId : Option Nat
deriving Repr, DecidableEq

/-- Python truthiness of an optional id: None and 0 are falsy. -/
def truthyOpt : Option Nat → Bool
  | some n => n != 0
  | none => false

/-- An outbound platform call performed by a handler. -/
inductive Effect where
  | post (channelId : Nat) (content : String)
  | editMsg (msgId : Nat) (content : String)
  | deleteMsg (msgId : Nat)
  | reactMsg (msgId : Nat) (emoji : String)
deriving Repr, DecidableEq

/-- Outcome of one webhook send call: the platform either returns the newly
created webhook message, or raises (discord.HTTPException etc.), which the
fan-out loop does not catch. -/
inductive SendOutcome where
  | ok (m : Msg)
  | err
deriving Repr, DecidableEq

/-- The mutable state of VoiceFixCog (init at lines 43-61 of cog.py):
the two link-index dicts, the per-channel webhook dict, and the two
FIFO correlation caches. -/
structure EngineState where
  channel_links : List (Nat × List Nat)
  link_channels : List (Nat × List Nat)
  hooks : List (Nat × Nat)
  message_cache : FIFOCache (List (Nat × Msg))
  wmessages : FIFOCache Nat
deriving Repr, DecidableEq

/-- VoiceFixCog.init: empty maps, message_cache maxsize 200,
wmessages maxsize 600. -/
def initState : EngineState :=
  { channel_links := []
    link_channels := []
    hooks := []
    message_cache := { maxsize := 200, entries := [] }
    wmessages := { maxsize := 600, entries := [] } }

/-- Accumulator threading the mutable locals of the on_message fan-out loop:
the wmessages cache, the sent list, the remaining send outcomes, and the
posts performed so far. -/
structure FanoutAcc where
  wmessages : FIFOCache Nat
  sent : List (Nat × Msg)
  env : List SendOutcome
  effects : List Effect
deriving Repr

/-- Inner loop of on_message (lines 108-127): iterate the member channels of
one link, skipping the origin channel, looking up the webhook
(self.hooks[channelid] raises KeyError if absent, which aborts the handler)
and sending; a send failure propagates and aborts.  Returns the updated
accumulator and whether the handler aborted with an exception. -/
def fanoutChans (message : Msg) (hooks : List (Nat × Nat)) :
    List Nat → FanoutAcc → FanoutAcc × Bool
  | [], acc => (acc, false)
  | c :: rest, acc =>
    if c == message.channelId then
      fanoutChans message hooks rest acc
    else
      match alookup hooks c with
      | none => (acc, true)
      | some _ =>
        match acc.env with
        | [] => (acc, true)
        | SendOutcome.err :: _ => (acc, true)
        | SendOutcome.ok m :: envRest =>
          fanoutChans message hooks rest
            { wmessages := acc.wmessages.insert m.id message.id
              sent := acc.sent ++ [(c, m)]
              env := envRest
              effects := acc.effects ++ [Effect.post c message.content] }

/-- Outer loop of on_message (lines 107-127): iterate the links of the origin
channel; self.link_channels[linkid] raises KeyError if the link id is not in
the map, aborting the handler. -/
def fanoutLinks (message : Msg) (link_channels : List (Nat × List Nat))
    (hooks : List (Nat × Nat)) :
    List Nat → FanoutAcc → FanoutAcc × Bool
  | [], acc => (acc, false)
  | l :: rest, acc =>
    match alookup link_channels l with
    | none => (acc, true)
    | some chans =>
      match fanoutChans message hooks chans acc with
      | (acc2, true) => (acc2, true)
      | (acc2, false) => fanoutLinks message link_channels hooks rest acc2

/-- VoiceFixCog.on_message (lines 95-134).  Returns the new state, the posts
performed, and whether the handler aborted with an uncaught exception
(in which case mutations already made persist, as in python). -/
def on_message (s : EngineState) (message : Msg) (env : List SendOutcome) :
    EngineState × List Effect × Bool :=
  if truthyOpt message.webhookId then (s, [], false)
  else
    let linkids := (alookup s.channel_links message.channelId).getD []
    if linkids.isEmpty then (s, [], false)
    else
      match fanoutLinks message s.link_channels s.hooks linkids
          { wmessages := s.wmessages, sent := [], env := env, effects := [] } with
      | (acc, true) => ({ s with wmessages := acc.wmessages }, acc.effects, true)
      | (acc, false) =>
        if acc.sent.isEmpty then
          ({ s with wmessages := acc.wmessages }, acc.effects, false)
        else
          let sentAll := acc.sent ++ [(message.channelId, message)]
          ({ s with
              wmessages := (acc.wmessages.insert message.id message.id)
              message_cache := s.message_cache.insert message.id sentAll },
            acc.effects, false)

/-- Loop body of on_message_edit (lines 141-151): for each cached pair, edit
the copy unless it is the edited message itself; a copy that no longer
exists (discord.NotFound, env returns false) is dropped from the new list.
Returns the new sent list and the edits performed. -/
def editCopies (beforeId : Nat) (newContent : String) (env : Nat → Bool) :
    List (Nat × Msg) → List (Nat × Msg) × List Effect
  | [] => ([], [])
  | (c, m) :: rest =>
    let r := editCopies beforeId newContent env rest
    if m.id == beforeId then ((c, m) :: r.1, r.2)
    else if env m.id then
      ((c, { m with content := newContent }) :: r.1,
        Effect.editMsg m.id newContent :: r.2)
    else r

/-- VoiceFixCog.on_message_edit (lines 137-153). -/
def on_message_edit (s : EngineState) (before after : Msg) (env : Nat → Bool) :
    EngineState × List Effect :=
  let popped := s.message_cache.pop before.id
  let cached := popped.1.getD []
  let r := editCopies before.id after.content env cached
  if r.1.isEmpty then
    ({ s with message_cache := popped.2 }, r.2)
  else
    ({ s with message_cache := popped.2.insert after.id r.1 }, r.2)

/-- Loop body of on_message_delete (lines 161-166): delete every cached copy
whose id differs from the deleted message; discord.NotFound (env false) is
swallowed. -/
def deleteCopies (delId : Nat) (env : Nat → Bool) :
    List (Nat × Msg) → List Effect
  | [] => []
  | (_, m) :: rest =>
    if m.id == delId then deleteCopies delId env rest
    else if env m.id then Effect.deleteMsg m.id :: deleteCopies delId env rest
    else deleteCopies delId env rest

/-- VoiceFixCog.on_message_delete (lines 155-166). -/
def on_message_delete (s : EngineState) (message : Msg) (env : Nat → Bool) :
    EngineState × List Effect :=
  let origid := s.wmessages.lookup message.id
  if truthyOpt origid then
    let o := origid.getD 0
    let popped := s.message_cache.pop o
    ({ s with message_cache := popped.2 },
      deleteCopies message.id env (popped.1.getD []))
  else (s, [])

/-- The fields of a discord.Reaction event the handler reads: the reacted
message id, the emoji, and Reaction.count, the number of users who have
reacted with that same emoji (including the one just added). -/
structure ReactionEvent where
  msgId : Nat
  emoji : String
  count : Nat
deriving Repr, DecidableEq

/-- Modelled from the spec (platform boundary, section 4.4 and 9): with each
reaction-added event the platform delivers the updated per-emoji count of
the added emoji on that message, that is, the number of existing reactions
with the same emoji plus one.  The prior reactions of a message are listed
as one emoji per user-reaction. -/
def emojiCountAfterAdd (existing : List String) (e : String) : Nat :=
  (existing.filter (fun x => x == e)).length + 1

/-- Loop body of on_reaction_add (lines 176-182): react on every cached copy
other than the reacted message; discord.HTTPException (env false) is
swallowed. -/
def reactCopies (reactId : Nat) (emoji : String) (env : Nat → Bool) :
    List (Nat × Msg) → List Effect
  | [] => []
  | (_, m) :: rest =>
    if m.id == reactId then reactCopies reactId emoji env rest
    else if env m.id then
      Effect.reactMsg m.id emoji :: reactCopies reactId emoji env rest
    else reactCopies reactId emoji env rest

/-- VoiceFixCog.on_reaction_add (lines 168-182).  Note the handler mutates no
state: it only reads the two caches and issues reaction calls. -/
def on_reaction_add (s : EngineState) (ev : ReactionEvent) (env : Nat → Bool) :
    EngineState × List Effect :=
  let origid := s.wmessages.lookup ev.msgId
  if truthyOpt origid && (ev.count == 1) then
    let copies := (s.message_cache.lookup (origid.getD 0)).getD []
    (s, reactCopies ev.msgId ev.emoji env copies)
  else (s, [])

/-- Insertion into a defaultdict(set) of the reload loop: append the value to
the set of the key, keeping insertion order and ignoring duplicates. -/
def addToMultiMap (m : List (Nat × List Nat)) (k v : Nat) :
    List (Nat × List Nat) :=
  match alookup m k with
  | none => m ++ [(k, [v])]
  | some vs =>
    if v ∈ vs then m
    else m.map (fun p => if p.1 == k then (p.1, vs ++ [v]) else p)

/-- VoiceFixCog.fetch_webhook_for (lines 184-201), abstracted over the
database row / webhook creation by hookEnv: none means the lookup found no
row and the channel could not be found to create a hook (ValueError), some h
means an initialised webhook h.  Returns the hook and the updated hooks
dict, or none on failure. -/
def fetch_webhook_for (hooks : List (Nat × Nat)) (hookEnv : Nat → Option Nat)
    (channelid : Nat) : Option (Nat × List (Nat × Nat)) :=
  match alookup hooks channelid with
  | some h => some (h, hooks)
  | none =>
    match hookEnv channelid with
    | some h => some (h, hooks ++ [(channelid, h)])
    | none => none

/-- The for-loop of reload_links over the linked channel ids (lines 84-86),
threading the hooks dict; a fetch_webhook_for failure aborts the reload with
the hooks mutated so far. -/
def provisionHooks (hookEnv : Nat → Option Nat) :
    List Nat → List (Nat × Nat) → List (Nat × Nat) × Bool
  | [], hooks => (hooks, true)
  | c :: rest, hooks =>
    match fetch_webhook_for hooks hookEnv c with
    | some r => provisionHooks hookEnv rest r.2
    | none => (hooks, false)

/-- VoiceFixCog.reload_links (lines 69-93).  fetchResult is the outcome of
the bulk select over channel_links rows, each row a (linkid, channelid)
pair; none means the durable store was unreachable (the select raised).
Returns the new state and whether the reload succeeded; on any failure the
two link maps keep their previous value, because the assignments at lines
88-89 run only after every earlier await succeeded. -/
def reload_links (s : EngineState) (fetchResult : Option (List (Nat × Nat)))
    (hookEnv : Nat → Option Nat) : EngineState × Bool :=
  match fetchResult with
  | none => (s, false)
  | some records =>
    let cl := records.foldl (fun m r => addToMultiMap m r.2 r.1) []
    let lc := records.foldl (fun m r => addToMultiMap m r.1 r.2) []
    let channelids := akeys cl
    match provisionHooks hookEnv channelids s.hooks with
    | (hooks2, false) => ({ s with hooks := hooks2 }, false)
    | (hooks2, true) =>
      ({ s with hooks := hooks2, channel_links := cl, link_channels := lc },
        true)

/-- The fan-out destination list of a message: for each link of the origin
channel, the member channels other than the origin, in iteration order, one
occurrence per link (the source performs no cross-link de-duplication). -/
def fanoutDests (s : EngineState) (originChannel : Nat) : List Nat :=
  ((alookup s.channel_links originChannel).getD []).flatMap
    (fun l => ((alookup s.link_channels l).getD []).filter
      (fun c => c != originChannel))

/-- Number of post effects targeting a given channel. -/
def postCount (effects : List Effect) (c : Nat) : Nat :=
  (effects.filter (fun e =>
    match e with
    | Effect.post ch _ => ch == c
    | _ => false)).length

/-- One inbound event delivered to the cog, with the environment describing
the platform outcomes of the outbound calls the handler will make. -/
inductive Event where
  | msgEv (m : Msg) (env : List SendOutcome)
  | editEv (before after : Msg) (env : Nat → Bool)
  | delEv (m : Msg) (env : Nat → Bool)
  | reactEv (ev : ReactionEvent) (env : Nat → Bool)
  | reloadEv (fetchResult : Option (List (Nat × Nat))) (hookEnv : Nat → Option Nat)

/-- Dispatch one event to its handler.  Besides the new state it reports
whether a fan-out aborted and, for a new-message event, the origin id. -/
def stepEvent (s : EngineState) : Event → EngineState × Bool × Nat
  | Event.msgEv m env =>
    match on_message s m env with
    | (s2, _, aborted) => (s2, aborted, m.id)
  | Event.editEv b a env => ((on_message_edit s b a env).1, false, 0)
  | Event.delEv m env => ((on_message_delete s m env).1, false, 0)
  | Event.reactEv ev env => ((on_reaction_add s ev env).1, false, 0)
  | Event.reloadEv f he => ((reload_links s f he).1, false, 0)

/-- The keys of the forward correlation cache. -/
def fwdKeys (s : EngineState) : List Nat :=
  akeys s.message_cache.entries

/-- Ghost-state update for one step: record every forward-cache key present
before the step and absent after it (removed by capacity eviction or by a
handler popping it), and the origin id of a fan-out that aborted partway. -/
def ghostStep (s s2 : EngineState) (aborted : Bool) (oid : Nat)
    (ghost : List Nat) : List Nat :=
  ghost ++ (fwdKeys s).filter (fun k => !((fwdKeys s2).contains k)) ++
    (if aborted then [oid] else [])

/-- Run a list of events, accumulating the verification ghost state. -/
def runEvents (s : EngineState) (ghost : List Nat) :
    List Event → EngineState × List Nat
  | [] => (s, ghost)
  | e :: rest =>
    match stepEvent s e with
    | (s2, aborted, oid) => runEvents s2 (ghostStep s s2 aborted oid ghost) rest

/-! ### Lemmas about association-list lookup -/

theorem akeys_cons {α : Type} (p : Nat × α) (t : List (Nat × α)) :
    akeys (p :: t) = p.1 :: akeys t := rfl

theorem akeys_append {α : Type} (l₁ l₂ : List (Nat × α)) :
    akeys (l₁ ++ l₂) = akeys l₁ ++ akeys l₂ := by
  simp [akeys]

theorem alookup_cons {α : Type} (p : Nat × α) (t : List (Nat × α)) (k : Nat) :
    alookup (p :: t) k = if p.1 = k then some p.2 else alookup t k := by
  by_cases h : p.1 = k
  · have h2 : (p.1 == k) = true := by simp [h]
    simp [alookup, h2, h]
  · have h2 : (p.1 == k) = false := by simp [h]
    simp [alookup, h2, h]

theorem filter_ne_cons {α : Type} (p : Nat × α) (t : List (Nat × α)) (k : Nat) :
    (p :: t).filter (fun q => q.1 != k) =
      if p.1 = k then t.filter (fun q => q.1 != k)
      else p :: t.filter (fun q => q.1 != k) := by
  by_cases h : p.1 = k <;> simp [List.filter_cons, h]

theorem alookup_append {α : Type} (l₁ l₂ : List (Nat × α)) (k : Nat) :
    alookup (l₁ ++ l₂) k =
      match alookup l₁ k with
      | some v => some v
      | none => alookup l₂ k := by
  induction l₁ with
  | nil => rfl
  | cons p t ih =>
    rw [List.cons_append, alookup_cons, alookup_cons]
    by_cases h : p.1 = k
    · simp [h]
    · simp [h, ih]

theorem alookup_filter_ne {α : Type} (l : List (Nat × α)) (j k : Nat)
    (h : j ≠ k) :
    alookup (l.filter (fun p => p.1 != k)) j = alookup l j := by
  induction l with
  | nil => rfl
  | cons p t ih =>
    rw [filter_ne_cons, alookup_cons]
    have hkj : ¬ k = j := fun hc => h hc.symm
    by_cases hpk : p.1 = k
    · have hpj : ¬ p.1 = j := by rw [hpk]; exact fun hc => h hc.symm
      simp [hpk, hpj, hkj, ih]
    · by_cases hpj : p.1 = j
      · simp [hpk, hpj, h, alookup_cons]
      · simp [hpk, hpj, alookup_cons, ih]

theorem alookup_filter_self {α : Type} (l : List (Nat × α)) (k : Nat) :
    alookup (l.filter (fun p => p.1 != k)) k = none := by
  induction l with
  | nil => rfl
  | cons p t ih =>
    rw [filter_ne_cons]
    by_cases hpk : p.1 = k
    · simp [hpk, ih]
    · simp [hpk, alookup_cons, ih]

theorem alookup_isSome_iff {α : Type} (l : List (Nat × α)) (k : Nat) :
    (alookup l k).isSome = true ↔ k ∈ akeys l := by
  induction l with
  | nil => simp [alookup, akeys]
  | cons p t ih =>
    rw [akeys_cons, List.mem_cons, alookup_cons]
    by_cases hpk : p.1 = k
    · simp [hpk]
    · have : ¬ k = p.1 := fun hc => hpk hc.symm
      simp [hpk, this, ih]

theorem alookup_eq_none {α : Type} (l : List (Nat × α)) (k : Nat)
    (h : ¬ k ∈ akeys l) : alookup l k = none := by
  cases hv : alookup l k with
  | none => rfl
  | some v =>
    exact absurd ((alookup_isSome_iff l k).1 (by simp [hv])) h

theorem any_key_iff {α : Type} (l : List (Nat × α)) (k : Nat) :
    (l.any (fun p => p.1 == k)) = true ↔ k ∈ akeys l := by
  induction l with
  | nil => simp [akeys]
  | cons p t ih =>
    rw [akeys_cons, List.mem_cons]
    by_cases hpk : p.1 = k
    · simp [hpk]
    · have h1 : (p.1 == k) = false := by simp [hpk]
      have h2 : ¬ k = p.1 := fun hc => hpk hc.symm
      simp [h1, h2, ih]

theorem alookup_some_mem {α : Type} (l : List (Nat × α)) (k : Nat) (v : α)
    (h : alookup l k = some v) : (k, v) ∈ l := by
  induction l with
  | nil => simp [alookup] at h
  | cons p t ih =>
    rw [alookup_cons] at h
    by_cases hpk : p.1 = k
    · rw [if_pos hpk] at h
      have hv : p.2 = v := by injection h
      refine List.mem_cons.2 (Or.inl ?_)
      cases p with
      | mk a b => simp at hpk hv; simp [hpk, hv]
    · rw [if_neg hpk] at h
      exact List.mem_cons_of_mem p (ih h)

theorem alookup_of_mem_nodup {α : Type} (l : List (Nat × α)) (k : Nat) (v : α)
    (hn : (akeys l).Nodup) (h : (k, v) ∈ l) : alookup l k = some v := by
  induction l with
  | nil => simp at h
  | cons p t ih =>
    rw [akeys_cons, List.nodup_cons] at hn
    rw [alookup_cons]
    rcases List.mem_cons.1 h with h1 | h1
    · rw [← h1]
      simp
    · have hk : k ∈ akeys t := by
        have : (alookup t k).isSome = true := by
          rw [ih hn.2 h1]
          rfl
        exact (alookup_isSome_iff t k).1 this
      have hp : ¬ p.1 = k := fun hc => hn.1 (hc ▸ hk)
      rw [if_neg hp]
      exact ih hn.2 h1

theorem alookup_sublist {α : Type} (l' l : List (Nat × α)) (k : Nat) (v : α)
    (hs : List.Sublist l' l) (hn : (akeys l).Nodup)
    (h : alookup l' k = some v) : alookup l k = some v := by
  have hm : (k, v) ∈ l := hs.subset (alookup_some_mem l' k v h)
  exact alookup_of_mem_nodup l k v hn hm

theorem akeys_sublist_of_sublist {α : Type} (l' l : List (Nat × α))
    (hs : List.Sublist l' l) : List.Sublist (akeys l') (akeys l) :=
  List.Sublist.map _ hs

theorem not_mem_akeys_filter_self {α : Type} (l : List (Nat × α)) (k : Nat) :
    ¬ k ∈ akeys (l.filter (fun p => p.1 != k)) := by
  intro h
  have := (alookup_isSome_iff _ k).2 h
  rw [alookup_filter_self] at this
  simp at this

/-! ### Lemmas about the FIFO caches -/

theorem mem_akeys_of_sublist {α : Type} {l' l : List (Nat × α)}
    (hs : List.Sublist l' l) {k : Nat} (h : k ∈ akeys l') : k ∈ akeys l :=
  (akeys_sublist_of_sublist l' l hs).subset h

theorem FIFOCache.insert_entries_pos {α : Type} (c : FIFOCache α) (k : Nat)
    (v : α) (h : (c.entries.any (fun p => p.1 == k)) = true) :
    (c.insert k v).entries = c.entries.filter (fun p => p.1 != k) ++ [(k, v)] := by
  unfold FIFOCache.insert
  rw [if_pos h]

theorem FIFOCache.insert_entries_neg {α : Type} (c : FIFOCache α) (k : Nat)
    (v : α) (h : ¬ (c.entries.any (fun p => p.1 == k)) = true) :
    (c.insert k v).entries =
      c.entries.drop (c.entries.length + 1 - c.maxsize) ++ [(k, v)] := by
  unfold FIFOCache.insert
  rw [if_neg h]

theorem FIFOCache.insert_maxsize {α : Type} (c : FIFOCache α) (k : Nat) (v : α) :
    (c.insert k v).maxsize = c.maxsize := by
  unfold FIFOCache.insert
  split <;> rfl

theorem FIFOCache.pop_snd_entries {α : Type} (c : FIFOCache α) (k : Nat) :
    (c.pop k).2.entries = if (alookup c.entries k).isSome = true then
      c.entries.filter (fun q => q.1 != k) else c.entries := by
  unfold FIFOCache.pop
  cases h : alookup c.entries k <;> simp

theorem FIFOCache.pop_maxsize {α : Type} (c : FIFOCache α) (k : Nat) :
    (c.pop k).2.maxsize = c.maxsize := by
  unfold FIFOCache.pop
  cases h : alookup c.entries k <;> rfl

theorem alookup_singleton_ne {α : Type} (k j : Nat) (v : α) (h : ¬ k = j) :
    alookup [(k, v)] j = none := by
  rw [alookup_cons]
  simp [h, alookup]

theorem FIFOCache.lookup_insert_self {α : Type} (c : FIFOCache α) (k : Nat)
    (v : α) : (c.insert k v).lookup k = some v := by
  rw [FIFOCache.lookup]
  by_cases h : (c.entries.any (fun p => p.1 == k)) = true
  · rw [FIFOCache.insert_entries_pos c k v h, alookup_append, alookup_filter_self]
    simp [alookup_cons]
  · rw [FIFOCache.insert_entries_neg c k v h]
    have hmem : ¬ k ∈ akeys c.entries := fun hm => h ((any_key_iff _ k).2 hm)
    have hdrop : ¬ k ∈ akeys (c.entries.drop (c.entries.length + 1 - c.maxsize)) :=
      fun hm => hmem (mem_akeys_of_sublist (List.drop_sublist _ _) hm)
    rw [alookup_append, alookup_eq_none _ _ hdrop]
    simp [alookup_cons]

theorem FIFOCache.lookup_insert_of_ne {α : Type} (c : FIFOCache α)
    (j k : Nat) (v : α) (h : j ≠ k)
    (hc : (c.entries.any (fun p => p.1 == k)) = true ∨
      c.entries.length < c.maxsize) :
    (c.insert k v).lookup j = c.lookup j := by
  have hkj : ¬ k = j := fun hcc => h hcc.symm
  rw [FIFOCache.lookup, FIFOCache.lookup]
  by_cases hany : (c.entries.any (fun p => p.1 == k)) = true
  · rw [FIFOCache.insert_entries_pos c k v hany, alookup_append,
      alookup_filter_ne _ _ _ h]
    cases hv : alookup c.entries j <;> simp [alookup_singleton_ne k j v hkj]
  · have hlen : c.entries.length < c.maxsize := by
      rcases hc with hc | hc
      · exact absurd hc hany
      · exact hc
    have hzero : c.entries.length + 1 - c.maxsize = 0 := by omega
    rw [FIFOCache.insert_entries_neg c k v hany, hzero, List.drop_zero,
      alookup_append]
    cases hv : alookup c.entries j <;> simp [alookup_singleton_ne k j v hkj]

theorem FIFOCache.insert_lookup_sub {α : Type} (c : FIFOCache α)
    (j k : Nat) (v o : α) (hn : (akeys c.entries).Nodup)
    (h : (c.insert k v).lookup j = some o) :
    (j = k ∧ o = v) ∨ c.lookup j = some o := by
  by_cases hjk : j = k
  · left
    refine ⟨hjk, ?_⟩
    rw [hjk, FIFOCache.lookup_insert_self] at h
    injection h.symm
  · right
    have hkj : ¬ k = j := fun hcc => hjk hcc.symm
    rw [FIFOCache.lookup] at h
    rw [FIFOCache.lookup]
    by_cases hany : (c.entries.any (fun p => p.1 == k)) = true
    · rw [FIFOCache.insert_entries_pos c k v hany, alookup_append,
        alookup_filter_ne _ _ _ hjk] at h
      cases hv : alookup c.entries j with
      | some w =>
        rw [hv] at h
        exact h
      | none => rw [hv, alookup_singleton_ne k j v hkj] at h; exact absurd h (by simp)
    · rw [FIFOCache.insert_entries_neg c k v hany, alookup_append] at h
      cases hv : alookup (c.entries.drop (c.entries.length + 1 - c.maxsize)) j with
      | some w =>
        rw [hv] at h
        have := alookup_sublist _ c.entries j w (List.drop_sublist _ _) hn hv
        rw [this]
        exact h
      | none => rw [hv, alookup_singleton_ne k j v hkj] at h; exact absurd h (by simp)

theorem FIFOCache.insert_nodup {α : Type} (c : FIFOCache α) (k : Nat) (v : α)
    (hn : (akeys c.entries).Nodup) :
    (akeys (c.insert k v).entries).Nodup := by
  by_cases hany : (c.entries.any (fun p => p.1 == k)) = true
  · rw [FIFOCache.insert_entries_pos c k v hany, akeys_append, List.nodup_append]
    refine ⟨hn.sublist (akeys_sublist_of_sublist _ _ (List.filter_sublist _)),
      by simp [akeys], ?_⟩
    intro a ha hb
    have hak : a = k := by simpa [akeys] using hb
    exact not_mem_akeys_filter_self c.entries k (hak ▸ ha)
  · rw [FIFOCache.insert_entries_neg c k v hany, akeys_append, List.nodup_append]
    refine ⟨hn.sublist (akeys_sublist_of_sublist _ _ (List.drop_sublist _ _)),
      by simp [akeys], ?_⟩
    intro a ha hb
    have hak : a = k := by simpa [akeys] using hb
    have hno : ¬ k ∈ akeys c.entries := fun hm => hany ((any_key_iff _ k).2 hm)
    exact hno (hak ▸ mem_akeys_of_sublist (List.drop_sublist _ _) ha)

theorem FIFOCache.pop_fst {α : Type} (c : FIFOCache α) (k : Nat) :
    (c.pop k).1 = c.lookup k := by
  unfold FIFOCache.pop
  rw [FIFOCache.lookup]
  cases h : alookup c.entries k <;> simp

theorem FIFOCache.pop_lookup_self {α : Type} (c : FIFOCache α) (k : Nat) :
    (c.pop k).2.lookup k = none := by
  rw [FIFOCache.lookup, FIFOCache.pop_snd_entries]
  cases h : alookup c.entries k with
  | some v => simp [alookup_filter_self]
  | none => simp [h]

theorem FIFOCache.pop_lookup_ne {α : Type} (c : FIFOCache α) (j k : Nat)
    (h : j ≠ k) : (c.pop k).2.lookup j = c.lookup j := by
  rw [FIFOCache.lookup, FIFOCache.lookup, FIFOCache.pop_snd_entries]
  cases hv : alookup c.entries k with
  | some v => simp [alookup_filter_ne _ _ _ h]
  | none => simp

theorem FIFOCache.pop_nodup {α : Type} (c : FIFOCache α) (k : Nat)
    (hn : (akeys c.entries).Nodup) :
    (akeys (c.pop k).2.entries).Nodup := by
  rw [FIFOCache.pop_snd_entries]
  cases hv : alookup c.entries k with
  | some v =>
    simp only [hv, Option.isSome_some, if_true]
    exact hn.sublist (akeys_sublist_of_sublist _ _ (List.filter_sublist _))
  | none => simpa [hv] using hn

theorem FIFOCache.pop_length_lt {α : Type} (c : FIFOCache α) (k : Nat) (v : α)
    (h : c.lookup k = some v) :
    (c.pop k).2.entries.length < c.entries.length := by
  rw [FIFOCache.lookup] at h
  rw [FIFOCache.pop_snd_entries, h]
  simp only [Option.isSome_some, if_true]
  have hmem : (k, v) ∈ c.entries := alookup_some_mem _ _ _ h
  refine List.length_filter_lt_length_iff_exists.2 ?_
  exact ⟨(k, v), hmem, by simp⟩

/-! ### Characterizations of the per-copy loops -/

theorem deleteCopies_eq (delId : Nat) (env : Nat → Bool)
    (l : List (Nat × Msg)) :
    deleteCopies delId env l =
      l.filterMap (fun p =>
        if p.2.id == delId then none
        else if env p.2.id then some (Effect.deleteMsg p.2.id) else none) := by
  induction l with
  | nil => rfl
  | cons p t ih =>
    cases p with
    | mk c m =>
      by_cases h1 : m.id = delId
      · simp [deleteCopies, List.filterMap_cons, h1, ih]
      · by_cases h2 : env m.id = true
        · simp [deleteCopies, List.filterMap_cons, h1, h2, ih]
        · simp [deleteCopies, List.filterMap_cons, h1, h2, ih]

theorem editCopies_eq (beforeId : Nat) (nc : String) (env : Nat → Bool)
    (l : List (Nat × Msg)) :
    editCopies beforeId nc env l =
      (l.filterMap (fun p =>
          if p.2.id == beforeId then some p
          else if env p.2.id then some (p.1, { p.2 with content := nc })
          else none),
        l.filterMap (fun p =>
          if p.2.id == beforeId then none
          else if env p.2.id then some (Effect.editMsg p.2.id nc)
          else none)) := by
  induction l with
  | nil => rfl
  | cons p t ih =>
    cases p with
    | mk c m =>
      by_cases h1 : m.id = beforeId
      · simp [editCopies, List.filterMap_cons, h1, ih]
      · by_cases h2 : env m.id = true
        · simp [editCopies, List.filterMap_cons, h1, h2, ih]
        · simp [editCopies, List.filterMap_cons, h1, h2, ih]

theorem reactCopies_eq (reactId : Nat) (emoji : String) (env : Nat → Bool)
    (l : List (Nat × Msg)) :
    reactCopies reactId emoji env l =
      l.filterMap (fun p =>
        if p.2.id == reactId then none
        else if env p.2.id then some (Effect.reactMsg p.2.id emoji)
        else none) := by
  induction l with
  | nil => rfl
  | cons p t ih =>
    cases p with
    | mk c m =>
      by_cases h1 : m.id = reactId
      · simp [reactCopies, List.filterMap_cons, h1, ih]
      · by_cases h2 : env m.id = true
        · simp [reactCopies, List.filterMap_cons, h1, h2, ih]
        · simp [reactCopies, List.filterMap_cons, h1, h2, ih]

/-- Recognizer for reaction effects. -/
def isReactEffect : Effect → Bool
  | Effect.reactMsg _ _ => true
  | _ => false

theorem reactCopies_all_react (reactId : Nat) (emoji : String)
    (env : Nat → Bool) (l : List (Nat × Msg)) :
    ((reactCopies reactId emoji env l).all isReactEffect) = true := by
  induction l with
  | nil => rfl
  | cons p t ih =>
    cases p with
    | mk c m =>
      by_cases h1 : m.id = reactId
      · simp [reactCopies, h1, ih]
      · by_cases h2 : env m.id = true
        · simp [reactCopies, h1, h2, isReactEffect, ih]
        · simp [reactCopies, h1, h2, ih]

/-! ### Claim theorems -/

/-- C5: a message carrying the platform-level relay-origin flag (a
webhook-produced message, message.webhook_id truthy) is never re-mirrored:
on_message returns without posting to any channel and without modifying any
part of the engine state. -/
theorem c5_webhook_message_ignored (s : EngineState) (message : Msg)
    (env : List SendOutcome) (h : truthyOpt message.webhookId = true) :
    on_message s message env = (s, [], false) := by
  unfold on_message
  rw [if_pos h]

/-- C5 witness: a concrete webhook-flagged message in a concrete state. -/
theorem c5_webhook_message_ignored_witness :
    on_message initState
      { id := 5, channelId := 7, content := "x", webhookId := some 3 } [] =
      (initState, [], false) :=
  c5_webhook_message_ignored initState
    { id := 5, channelId := 7, content := "x", webhookId := some 3 } []
    (by decide)

/-- C10: the reaction-added handler never mutates any engine state (the
first component of its result is the input state unchanged, hence the
forward cache, reverse index, link maps and webhook cache are identical),
and every effect it performs is an outbound reaction call. -/
theorem c10_reaction_handler_frame (s : EngineState) (ev : ReactionEvent)
    (env : Nat → Bool) :
    (on_reaction_add s ev env).1 = s ∧
      ((on_reaction_add s ev env).2.all isReactEffect) = true := by
  unfold on_reaction_add
  by_cases h : (truthyOpt (s.wmessages.lookup ev.msgId) && (ev.count == 1)) = true
  · rw [if_pos h]
    exact ⟨rfl, reactCopies_all_react _ _ _ _⟩
  · rw [if_neg h]
    exact ⟨rfl, rfl⟩

/-- C6: if the bulk membership fetch fails (fetchResult is none, the select
raised), reload_links fails and leaves the whole state unchanged; moreover
whenever reload_links reports failure, the channel-to-links and
link-to-channels maps are exactly those from before the call: the fetched
result is applied only after the reload fully succeeds. -/
theorem c6_reload_retains_state_on_failure (s : EngineState)
    (hookEnv : Nat → Option Nat) :
    reload_links s none hookEnv = (s, false) ∧
    ∀ fetchResult, (reload_links s fetchResult hookEnv).2 = false →
      (reload_links s fetchResult hookEnv).1.channel_links = s.channel_links ∧
      (reload_links s fetchResult hookEnv).1.link_channels = s.link_channels := by
  constructor
  · rfl
  · intro fetchResult h
    cases fetchResult with
    | none => exact ⟨rfl, rfl⟩
    | some records =>
      simp only [reload_links] at h ⊢
      cases hp : provisionHooks hookEnv
          (akeys (records.foldl (fun m r => addToMultiMap m r.2 r.1) [])) s.hooks with
      | mk hooks2 ok =>
        cases ok with
        | false => exact ⟨rfl, rfl⟩
        | true =>
          rw [hp] at h
          exact (Bool.noConfusion h)

/-- C6 witness: reload with the store unreachable on the initial state. -/
theorem c6_reload_retains_state_on_failure_witness :
    reload_links initState none (fun _ => none) = (initState, false) ∧
    (reload_links initState none (fun _ => none)).1.channel_links =
      initState.channel_links ∧
    (reload_links initState none (fun _ => none)).1.link_channels =
      initState.link_channels := by
  refine ⟨(c6_reload_retains_state_on_failure initState (fun _ => none)).1, ?_, ?_⟩
  · exact ((c6_reload_retains_state_on_failure initState (fun _ => none)).2
      none rfl).1
  · exact ((c6_reload_retains_state_on_failure initState (fun _ => none)).2
      none rfl).2

/-- C7: on a delete event for a message whose id is in the reverse index
(with a genuine, nonzero origin id) and whose origin has a forward entry,
the handler removes the forward correlation entry for the origin id, leaves
every other forward entry and the reverse index and link maps untouched, and
deletes exactly the recorded copies whose id differs from the deleted
message id and which still exist; copies already missing on the platform
(env false) are skipped silently. -/
theorem c7_delete_propagates (s : EngineState) (message : Msg)
    (env : Nat → Bool) (o : Nat) (copies : List (Nat × Msg))
    (h1 : s.wmessages.lookup message.id = some o) (h2 : o ≠ 0)
    (h3 : s.message_cache.lookup o = some copies) :
    (on_message_delete s message env).1.message_cache.lookup o = none ∧
    (∀ k, k ≠ o → (on_message_delete s message env).1.message_cache.lookup k
      = s.message_cache.lookup k) ∧
    (on_message_delete s message env).1.wmessages = s.wmessages ∧
    (on_message_delete s message env).1.channel_links = s.channel_links ∧
    (on_message_delete s message env).1.link_channels = s.link_channels ∧
    (on_message_delete s message env).1.hooks = s.hooks ∧
    (on_message_delete s message env).2 =
      copies.filterMap (fun p =>
        if p.2.id == message.id then none
        else if env p.2.id then some (Effect.deleteMsg p.2.id) else none) := by
  have ht : truthyOpt (s.wmessages.lookup message.id) = true := by
    rw [h1]
    simp [truthyOpt, h2]
  have hgd : (s.wmessages.lookup message.id).getD 0 = o := by
    rw [h1]
    rfl
  unfold on_message_delete
  rw [if_pos ht, hgd]
  have hfst : (s.message_cache.pop o).1.getD [] = copies := by
    rw [FIFOCache.pop_fst, h3]
    rfl
  refine ⟨?_, ?_, rfl, rfl, rfl, rfl, ?_⟩
  · exact FIFOCache.pop_lookup_self _ _
  · intro k hk
    exact FIFOCache.pop_lookup_ne _ _ _ hk
  · show deleteCopies message.id env ((s.message_cache.pop o).1.getD []) = _
    rw [hfst, deleteCopies_eq]

/-- Concrete fixtures: an origin message in channel 100, its webhook copy in
channel 200, and a state holding the resulting correlation. -/
def exOrig : Msg := { id := 10, channelId := 100, content := "hi", webhookId := none }

def exCopyB : Msg := { id := 20, channelId := 200, content := "hi", webhookId := some 9 }

def exCorrState : EngineState :=
  { channel_links := [(100, [1]), (200, [1])]
    link_channels := [(1, [100, 200])]
    hooks := [(100, 100), (200, 200)]
    message_cache := { maxsize := 200, entries := [(10, [(200, exCopyB), (100, exOrig)])] }
    wmessages := { maxsize := 600, entries := [(20, 10), (10, 10)] } }

/-- C7 witness: a concrete state holding one correlation, deleting the
origin message removes the forward entry. -/
theorem c7_delete_propagates_witness :
    (on_message_delete exCorrState exOrig
      (fun _ => true)).1.message_cache.lookup 10 = none := by
  exact (c7_delete_propagates exCorrState exOrig (fun _ => true) 10
    [(200, exCopyB), (100, exOrig)]
    (by decide) (by decide) (by decide)).1

/-- The copy list produced by an edit event: the copy whose id equals the
pre-edit id is kept as is, every other still-existing copy is kept with its
content replaced, and copies that no longer exist are dropped. -/
def editedCopyList (beforeId : Nat) (nc : String) (env : Nat → Bool)
    (l : List (Nat × Msg)) : List (Nat × Msg) :=
  l.filterMap (fun p =>
    if p.2.id == beforeId then some p
    else if env p.2.id then some (p.1, { p.2 with content := nc }) else none)

/-- The edit calls performed by an edit event: one per still-existing copy
whose id differs from the pre-edit id. -/
def editedEffectList (beforeId : Nat) (nc : String) (env : Nat → Bool)
    (l : List (Nat × Msg)) : List Effect :=
  l.filterMap (fun p =>
    if p.2.id == beforeId then none
    else if env p.2.id then some (Effect.editMsg p.2.id nc) else none)

theorem editCopies_eq2 (beforeId : Nat) (nc : String) (env : Nat → Bool)
    (l : List (Nat × Msg)) :
    editCopies beforeId nc env l =
      (editedCopyList beforeId nc env l, editedEffectList beforeId nc env l) :=
  editCopies_eq beforeId nc env l

/-- C8: on an edit event whose pre-edit id is a forward-cache key, the
handler removes the forward entry keyed by the pre-edit id, edits every
still-existing copy except the one whose id equals the edited message id to
the new content, drops copies that no longer exist, and re-inserts the
possibly shrunk copy list, if non-empty, under the post-edit message id;
all other state components are untouched. -/
theorem c8_edit_propagates (s : EngineState) (before after : Msg)
    (env : Nat → Bool) (copies : List (Nat × Msg))
    (h1 : s.message_cache.lookup before.id = some copies)
    (hlen : s.message_cache.entries.length ≤ s.message_cache.maxsize) :
    (∀ k, (on_message_edit s before after env).1.message_cache.lookup k =
      if k = after.id ∧ editedCopyList before.id after.content env copies ≠ []
      then some (editedCopyList before.id after.content env copies)
      else if k = before.id then none
      else s.message_cache.lookup k) ∧
    (on_message_edit s before after env).1.wmessages = s.wmessages ∧
    (on_message_edit s before after env).1.channel_links = s.channel_links ∧
    (on_message_edit s before after env).1.link_channels = s.link_channels ∧
    (on_message_edit s before after env).1.hooks = s.hooks ∧
    (on_message_edit s before after env).2 =
      editedEffectList before.id after.content env copies := by
  have hpop1 : (s.message_cache.pop before.id).1 = some copies := by
    rw [FIFOCache.pop_fst, h1]
  have hlt : (s.message_cache.pop before.id).2.entries.length <
      (s.message_cache.pop before.id).2.maxsize := by
    rw [FIFOCache.pop_maxsize]
    exact lt_of_lt_of_le (FIFOCache.pop_length_lt _ _ copies h1) hlen
  have hchar : on_message_edit s before after env =
      (if (editedCopyList before.id after.content env copies).isEmpty then
        ({ s with message_cache := (s.message_cache.pop before.id).2 },
          editedEffectList before.id after.content env copies)
      else
        ({ s with message_cache :=
            ((s.message_cache.pop before.id).2.insert after.id
              (editedCopyList before.id after.content env copies)) },
          editedEffectList before.id after.content env copies)) := by
    simp only [on_message_edit, hpop1, Option.getD_some, editCopies_eq2]
  rw [hchar]
  by_cases hempty : editedCopyList before.id after.content env copies = []
  · have hie : (editedCopyList before.id after.content env copies).isEmpty = true := by
      rw [hempty]
      rfl
    rw [if_pos hie]
    refine ⟨?_, rfl, rfl, rfl, rfl, rfl⟩
    intro k
    by_cases hk : k = before.id
    · rw [hk, if_pos rfl, if_neg (fun hc => hc.2 hempty)]
      exact FIFOCache.pop_lookup_self _ _
    · rw [if_neg (fun hc => hc.2 hempty), if_neg hk]
      exact FIFOCache.pop_lookup_ne _ _ _ hk
  · have hie : ¬ (editedCopyList before.id after.content env copies).isEmpty = true := by
      simp [hempty]
    rw [if_neg hie]
    refine ⟨?_, rfl, rfl, rfl, rfl, rfl⟩
    intro k
    by_cases hk : k = after.id
    · rw [hk, if_pos ⟨rfl, hempty⟩]
      exact FIFOCache.lookup_insert_self _ _ _
    · rw [if_neg (fun hc => hk hc.1)]
      rw [FIFOCache.lookup_insert_of_ne _ _ _ _ hk (Or.inr hlt)]
      by_cases hkb : k = before.id
      · rw [if_pos hkb, hkb]
        exact FIFOCache.pop_lookup_self _ _
      · rw [if_neg hkb]
        exact FIFOCache.pop_lookup_ne _ _ _ hkb

/-- C8 witness: editing the concrete origin message moves its correlation to
the edited copy list. -/
theorem c8_edit_propagates_witness :
    (on_message_edit exCorrState exOrig
      { id := 10, channelId := 100, content := "hello", webhookId := none }
      (fun _ => true)).1.message_cache.lookup 10 =
      some (editedCopyList exOrig.id "hello" (fun _ => true)
        [(200, exCopyB), (100, exOrig)]) := by
  have h := (c8_edit_propagates exCorrState exOrig
    { id := 10, channelId := 100, content := "hello", webhookId := none }
    (fun _ => true) [(200, exCopyB), (100, exOrig)] (by decide)
    (by decide)).1 10
  rw [h]
  rw [if_pos ⟨rfl, by decide⟩]

/-- C3 counterexample: message 10 of the concrete correlated state already
carries one reaction (emoji A, prior reactions [A]); a second reaction with
a different emoji B arrives, whose platform-delivered per-emoji count is 1,
and the handler does mirror it to the sibling copy, contradicting the claim
that any second reaction on the same message triggers no further
mirroring. -/
theorem c3_counterexample :
    emojiCountAfterAdd ["A"] "B" = 1 ∧
    (on_reaction_add exCorrState
      { msgId := 10, emoji := "B", count := emojiCountAfterAdd ["A"] "B" }
      (fun _ => true)).2 = [Effect.reactMsg 20 "B"] := by
  constructor
  · rfl
  · rfl

/-- C3 amended: the handler mirrors a reaction on a correlated message (with
genuine nonzero origin id) exactly when the added emoji had no prior
reaction of the same emoji on that message, that is, when its per-emoji
count transitions 0 to 1: a repeat of an already-present emoji triggers no
mirroring, while the first reaction of a fresh emoji is mirrored even when
the message already carries other reactions. -/
theorem c3_reaction_mirror_per_emoji (s : EngineState) (ev : ReactionEvent)
    (env : Nat → Bool) (o : Nat) (prior : List String)
    (h1 : s.wmessages.lookup ev.msgId = some o) (h2 : o ≠ 0)
    (hc : ev.count = emojiCountAfterAdd prior ev.emoji) :
    ((prior.filter (fun x => x == ev.emoji)) = [] →
      (on_reaction_add s ev env).2 =
        ((s.message_cache.lookup o).getD []).filterMap (fun p =>
          if p.2.id == ev.msgId then none
          else if env p.2.id then some (Effect.reactMsg p.2.id ev.emoji)
          else none)) ∧
    ((prior.filter (fun x => x == ev.emoji)) ≠ [] →
      (on_reaction_add s ev env).2 = []) := by
  have ht : truthyOpt (s.wmessages.lookup ev.msgId) = true := by
    rw [h1]
    simp [truthyOpt, h2]
  constructor
  · intro hp
    have hcount : ev.count = 1 := by
      rw [hc, emojiCountAfterAdd, hp]
      rfl
    simp only [on_reaction_add]
    rw [if_pos (by rw [ht, hcount]; rfl)]
    show reactCopies ev.msgId ev.emoji env
      ((s.message_cache.lookup ((s.wmessages.lookup ev.msgId).getD 0)).getD []) = _
    rw [reactCopies_eq, h1]
    rfl
  · intro hp
    have hcount : ev.count ≠ 1 := by
      rw [hc, emojiCountAfterAdd]
      have hlen : (prior.filter (fun x => x == ev.emoji)).length ≠ 0 := by
        simpa [List.length_eq_zero] using hp
      omega
    simp only [on_reaction_add]
    rw [if_neg (by simp [hcount])]

/-- C3 amended witness: same-emoji repeat mirrors nothing on the concrete
state. -/
theorem c3_reaction_mirror_per_emoji_witness :
    (on_reaction_add exCorrState
      { msgId := 10, emoji := "A", count := emojiCountAfterAdd ["A"] "A" }
      (fun _ => true)).2 = [] := by
  exact (c3_reaction_mirror_per_emoji exCorrState
    { msgId := 10, emoji := "A", count := emojiCountAfterAdd ["A"] "A" }
    (fun _ => true) 10 ["A"] (by decide) (by decide) rfl).2 (by decide)

/-- C9: the correlation caches are fixed-capacity insertion-order maps with
capacities 200 (forward) and 600 (reverse); inserting a fresh entry into a
cache whose entry count equals its capacity evicts exactly the
oldest-inserted entry (the evicted key then looks up as absent, every
younger entry and the new entry remain, and the size stays at capacity),
and each of the four event handlers treats a missed lookup as a silent
no-op, never an error. -/
theorem c9_cache_capacity_eviction_noop :
    initState.message_cache.maxsize = 200 ∧
    initState.wmessages.maxsize = 600 ∧
    (∀ (c : FIFOCache Nat) (k v : Nat) (p : Nat × Nat) (rest : List (Nat × Nat)),
      c.entries = p :: rest →
      c.entries.length = c.maxsize →
      (akeys c.entries).Nodup →
      ¬ k ∈ akeys c.entries →
      (c.insert k v).entries = rest ++ [(k, v)] ∧
      (c.insert k v).lookup p.1 = none ∧
      (c.insert k v).lookup k = some v ∧
      (∀ q ∈ rest, (c.insert k v).lookup q.1 = some q.2) ∧
      (c.insert k v).entries.length = c.maxsize) ∧
    (∀ (s : EngineState) (m : Msg) (env : List SendOutcome),
      alookup s.channel_links m.channelId = none →
      on_message s m env = (s, [], false)) ∧
    (∀ (s : EngineState) (b a : Msg) (env : Nat → Bool),
      s.message_cache.lookup b.id = none →
      on_message_edit s b a env = (s, [])) ∧
    (∀ (s : EngineState) (m : Msg) (env : Nat → Bool),
      s.wmessages.lookup m.id = none →
      on_message_delete s m env = (s, [])) ∧
    (∀ (s : EngineState) (ev : ReactionEvent) (env : Nat → Bool),
      s.wmessages.lookup ev.msgId = none →
      on_reaction_add s ev env = (s, [])) := by
  refine ⟨rfl, rfl, ?_, ?_, ?_, ?_, ?_⟩
  · intro c k v p rest hentries hlen hnodup hfresh
    have hany : ¬ (c.entries.any (fun q => q.1 == k)) = true :=
      fun ha => hfresh ((any_key_iff _ k).1 ha)
    have hone : c.entries.length + 1 - c.maxsize = 1 := by omega
    have hent2 : (c.insert k v).entries = rest ++ [(k, v)] := by
      rw [FIFOCache.insert_entries_neg c k v hany, hone, hentries]
      rfl
    have hnodup2 : (p.1 :: akeys rest).Nodup := by
      rw [← akeys_cons, ← hentries]
      exact hnodup
    have hkp : ¬ k = p.1 := by
      intro hc
      exact hfresh (by rw [hentries, akeys_cons, hc]; exact List.mem_cons_self _ _)
    refine ⟨hent2, ?_, FIFOCache.lookup_insert_self c k v, ?_, ?_⟩
    · rw [FIFOCache.lookup, hent2, alookup_append,
        alookup_eq_none rest p.1 (List.nodup_cons.1 hnodup2).1]
      exact alookup_singleton_ne k p.1 v hkp
    · intro q hq
      have hkq : ¬ k = q.1 := by
        intro hc
        refine hfresh ?_
        rw [hentries, akeys_cons, hc]
        exact List.mem_cons_of_mem _ (List.mem_map_of_mem _ hq)
      rw [FIFOCache.lookup, hent2, alookup_append,
        alookup_of_mem_nodup rest q.1 q.2 (List.nodup_cons.1 hnodup2).2
          (by simpa using hq)]
    · rw [hent2]
      have : c.entries.length = rest.length + 1 := by
        rw [hentries]
        rfl
      simp
      omega
  · intro s m env h
    simp only [on_message, h, Option.getD_none, List.isEmpty_nil, if_true]
    by_cases hw : truthyOpt m.webhookId = true
    · rw [if_pos hw]
    · rw [if_neg hw]
  · intro s b a env h
    have hpop2 : s.message_cache.pop b.id = (none, s.message_cache) := by
      unfold FIFOCache.pop
      rw [show alookup s.message_cache.entries b.id = none from h]
    simp only [on_message_edit, hpop2, Option.getD_none]
    rfl
  · intro s m env h
    simp only [on_message_delete, h]
    rfl
  · intro s ev env h
    simp only [on_reaction_add, h]
    rfl

/-- C9 witness: a concrete full two-entry cache evicts its oldest entry, and
a delete event with no reverse entry is a no-op on the initial state. -/
theorem c9_cache_capacity_eviction_noop_witness :
    (({ maxsize := 2, entries := [(1, 10), (2, 20)] } : FIFOCache Nat).insert
      3 30).lookup 1 = none ∧
    on_message_delete initState exOrig (fun _ => true) = (initState, []) := by
  constructor
  · exact (c9_cache_capacity_eviction_noop.2.2.1
      { maxsize := 2, entries := [(1, 10), (2, 20)] } 3 30 (1, 10) [(2, 20)]
      rfl rfl (by decide) (by decide)).2.1
  · exact c9_cache_capacity_eviction_noop.2.2.2.2.2.1 initState exOrig
      (fun _ => true) (by decide)

/-! ### Characterization of the fan-out loop -/

theorem fanoutChans_cons_skip (message : Msg) (hooks : List (Nat × Nat))
    (c : Nat) (rest : List Nat) (acc : FanoutAcc)
    (h : (c == message.channelId) = true) :
    fanoutChans message hooks (c :: rest) acc =
      fanoutChans message hooks rest acc := by
  simp [fanoutChans, h]

theorem fanoutChans_cons_send (message : Msg) (hooks : List (Nat × Nat))
    (c : Nat) (rest : List Nat) (acc : FanoutAcc) (m : Msg)
    (envRest : List SendOutcome)
    (hc : ¬ (c == message.channelId) = true)
    (hh : (alookup hooks c).isSome = true)
    (he : acc.env = SendOutcome.ok m :: envRest) :
    fanoutChans message hooks (c :: rest) acc =
      fanoutChans message hooks rest
        { wmessages := acc.wmessages.insert m.id message.id
          sent := acc.sent ++ [(c, m)]
          env := envRest
          effects := acc.effects ++ [Effect.post c message.content] } := by
  obtain ⟨h, hhk⟩ := Option.isSome_iff_exists.1 hh
  simp [fanoutChans, hc, hhk, he]

theorem fanoutChans_cons_err (message : Msg) (hooks : List (Nat × Nat))
    (c : Nat) (rest : List Nat) (acc : FanoutAcc)
    (tail : List SendOutcome)
    (hc : ¬ (c == message.channelId) = true)
    (hh : (alookup hooks c).isSome = true)
    (he : acc.env = SendOutcome.err :: tail) :
    fanoutChans message hooks (c :: rest) acc = (acc, true) := by
  obtain ⟨h, hhk⟩ := Option.isSome_iff_exists.1 hh
  simp [fanoutChans, hc, hhk, he]

theorem fanoutChans_ok (message : Msg) (hooks : List (Nat × Nat))
    (chans : List Nat) :
    ∀ (acc : FanoutAcc) (msgs : List Msg) (tail : List SendOutcome),
    (∀ c ∈ chans, c ≠ message.channelId → (alookup hooks c).isSome = true) →
    acc.env = msgs.map SendOutcome.ok ++ tail →
    (chans.filter (fun c => c != message.channelId)).length ≤ msgs.length →
    (fanoutChans message hooks chans acc).2 = false ∧
    (fanoutChans message hooks chans acc).1.effects = acc.effects ++
      (chans.filter (fun c => c != message.channelId)).map
        (fun c => Effect.post c message.content) ∧
    (fanoutChans message hooks chans acc).1.sent.length = acc.sent.length +
      (chans.filter (fun c => c != message.channelId)).length ∧
    (fanoutChans message hooks chans acc).1.env =
      (msgs.drop (chans.filter (fun c => c != message.channelId)).length).map
        SendOutcome.ok ++ tail := by
  induction chans with
  | nil =>
    intro acc msgs tail hh he hl
    exact ⟨rfl, by simp [fanoutChans], by simp [fanoutChans],
      by simpa [fanoutChans] using he⟩
  | cons c rest ih =>
    intro acc msgs tail hh he hl
    by_cases hc : c = message.channelId
    · have hcb : (c == message.channelId) = true := by simp [hc]
      have hfc : ((c :: rest).filter (fun x => x != message.channelId)) =
          rest.filter (fun x => x != message.channelId) := by
        simp [List.filter_cons, hc]
      rw [fanoutChans_cons_skip message hooks c rest acc hcb, hfc]
      exact ih acc msgs tail (fun x hx => hh x (List.mem_cons_of_mem c hx)) he
        (by rw [← hfc]; exact hl)
    · have hcb : ¬ (c == message.channelId) = true := by simp [hc]
      have hfc : ((c :: rest).filter (fun x => x != message.channelId)) =
          c :: rest.filter (fun x => x != message.channelId) := by
        simp [List.filter_cons, hc]
      rw [hfc] at hl ⊢
      cases msgs with
      | nil => simp at hl
      | cons m msgs2 =>
        have he2 : acc.env = SendOutcome.ok m ::
            (msgs2.map SendOutcome.ok ++ tail) := by simpa using he
        rw [fanoutChans_cons_send message hooks c rest acc m
          (msgs2.map SendOutcome.ok ++ tail) hcb
          (hh c (List.mem_cons_self c rest) hc) he2]
        have ihr := ih
          { wmessages := acc.wmessages.insert m.id message.id
            sent := acc.sent ++ [(c, m)]
            env := msgs2.map SendOutcome.ok ++ tail
            effects := acc.effects ++ [Effect.post c message.content] }
          msgs2 tail (fun x hx => hh x (List.mem_cons_of_mem c hx)) rfl
          (by simp at hl; omega)
        refine ⟨ihr.1, ?_, ?_, ?_⟩
        · rw [ihr.2.1]
          simp
        · rw [ihr.2.2.1]
          simp
          omega
        · rw [ihr.2.2.2]
          simp

theorem fanoutLinks_ok (message : Msg) (link_channels : List (Nat × List Nat))
    (hooks : List (Nat × Nat)) (linkids : List Nat) :
    ∀ (acc : FanoutAcc) (msgs : List Msg) (tail : List SendOutcome),
    (∀ l ∈ linkids, (alookup link_channels l).isSome = true) →
    (∀ l ∈ linkids, ∀ c ∈ (alookup link_channels l).getD [],
      c ≠ message.channelId → (alookup hooks c).isSome = true) →
    acc.env = msgs.map SendOutcome.ok ++ tail →
    (linkids.flatMap (fun l => ((alookup link_channels l).getD []).filter
      (fun c => c != message.channelId))).length ≤ msgs.length →
    (fanoutLinks message link_channels hooks linkids acc).2 = false ∧
    (fanoutLinks message link_channels hooks linkids acc).1.effects =
      acc.effects ++
      (linkids.flatMap (fun l => ((alookup link_channels l).getD []).filter
        (fun c => c != message.channelId))).map
        (fun c => Effect.post c message.content) ∧
    (fanoutLinks message link_channels hooks linkids acc).1.sent.length =
      acc.sent.length +
      (linkids.flatMap (fun l => ((alookup link_channels l).getD []).filter
        (fun c => c != message.channelId))).length ∧
    (fanoutLinks message link_channels hooks linkids acc).1.env =
      (msgs.drop (linkids.flatMap (fun l =>
        ((alookup link_channels l).getD []).filter
          (fun c => c != message.channelId))).length).map
        SendOutcome.ok ++ tail := by
  induction linkids with
  | nil =>
    intro acc msgs tail hlk hh he hl
    exact ⟨rfl, by simp [fanoutLinks], by simp [fanoutLinks],
      by simpa [fanoutLinks] using he⟩
  | cons l rest ih =>
    intro acc msgs tail hlk hh he hl
    obtain ⟨chans, hchans⟩ := Option.isSome_iff_exists.1
      (hlk l (List.mem_cons_self l rest))
    have hgd : (alookup link_channels l).getD [] = chans := by
      rw [hchans]
      rfl
    have hstep : fanoutLinks message link_channels hooks (l :: rest) acc =
        (match fanoutChans message hooks chans acc with
          | (acc2, true) => (acc2, true)
          | (acc2, false) => fanoutLinks message link_channels hooks rest acc2) := by
      simp [fanoutLinks, hchans]
    have hlen1 : (chans.filter (fun c => c != message.channelId)).length ≤
        msgs.length := by
      rw [List.flatMap_cons, hgd] at hl
      simp at hl
      omega
    have hco := fanoutChans_ok message hooks chans acc msgs tail
      (fun c hc hcn => hh l (List.mem_cons_self l rest) c (hgd ▸ hc) hcn)
      he hlen1
    cases hfc : fanoutChans message hooks chans acc with
    | mk acc2 aborted =>
      rw [hfc] at hco
      cases aborted with
      | true => exact absurd hco.1 (by simp)
      | false =>
        rw [hstep, hfc]
        have hlen2 : (rest.flatMap (fun l =>
            ((alookup link_channels l).getD []).filter
              (fun c => c != message.channelId))).length ≤
            (msgs.drop (chans.filter
              (fun c => c != message.channelId)).length).length := by
          rw [List.flatMap_cons, hgd] at hl
          simp at hl ⊢
          omega
        have ihr := ih acc2
          (msgs.drop (chans.filter (fun c => c != message.channelId)).length)
          tail (fun x hx => hlk x (List.mem_cons_of_mem l hx))
          (fun x hx => hh x (List.mem_cons_of_mem l hx))
          hco.2.2.2 hlen2
        refine ⟨ihr.1, ?_, ?_, ?_⟩
        · rw [ihr.2.1, hco.2.1, List.flatMap_cons, hgd]
          simp
        · rw [ihr.2.2.1, hco.2.2.1, List.flatMap_cons, hgd]
          simp
          omega
        · rw [ihr.2.2.2, List.flatMap_cons, hgd]
          simp

theorem postCount_map_post (l : List Nat) (content : String) (c : Nat) :
    postCount (l.map (fun x => Effect.post x content)) c = l.count c := by
  induction l with
  | nil => rfl
  | cons x t ih =>
    simp only [List.map_cons, postCount, List.filter_cons]
    by_cases h : x = c
    · simp only [postCount] at ih
      simp [h, List.count_cons, ih]
    · have hb : (x == c) = false := by simp [h]
      simp only [postCount] at ih
      simp [hb, List.count_cons, h, ih]

theorem count_flatMap_dests (link_channels : List (Nat × List Nat))
    (origin c : Nat) (hc : c ≠ origin) :
    ∀ linkids : List Nat,
    (∀ l ∈ linkids, ((alookup link_channels l).getD []).Nodup) →
    (linkids.flatMap (fun l => ((alookup link_channels l).getD []).filter
      (fun x => x != origin))).count c =
      (linkids.filter (fun l =>
        decide (c ∈ (alookup link_channels l).getD []))).length := by
  intro linkids
  induction linkids with
  | nil => intro _; rfl
  | cons l rest ih =>
    intro hnd
    rw [List.flatMap_cons, List.count_append, List.filter_cons]
    have hone : (((alookup link_channels l).getD []).filter
        (fun x => x != origin)).count c =
        if c ∈ (alookup link_channels l).getD [] then 1 else 0 := by
      by_cases hm : c ∈ (alookup link_channels l).getD []
      · rw [List.count_filter (by simp [hc])]
        rw [if_pos hm]
        exact List.count_eq_one_of_mem (hnd l (List.mem_cons_self l rest)) hm
      · have hnm : ¬ c ∈ ((alookup link_channels l).getD []).filter
            (fun x => x != origin) := fun h => hm (List.mem_filter.1 h).1
        rw [if_neg hm]
        exact List.count_eq_zero.2 hnm
    rw [hone, ih (fun x hx => hnd x (List.mem_cons_of_mem l hx))]
    by_cases hm : c ∈ (alookup link_channels l).getD []
    · simp [hm]
      omega
    · simp [hm]

theorem not_origin_mem_dests (s : EngineState) (origin : Nat) :
    ¬ origin ∈ fanoutDests s origin := by
  intro hmem
  rw [fanoutDests] at hmem
  obtain ⟨l, _, hm⟩ := List.mem_flatMap.1 hmem
  have h2 := (List.mem_filter.1 hm).2
  simp at h2

/-- Characterization of on_message for a non-relay message in a linked
channel, in terms of the fan-out loop. -/
theorem on_message_char (s : EngineState) (message : Msg)
    (env : List SendOutcome) (linkids : List Nat)
    (hwk : truthyOpt message.webhookId = false)
    (hl0 : alookup s.channel_links message.channelId = some linkids)
    (hne : linkids ≠ []) :
    on_message s message env =
      (match fanoutLinks message s.link_channels s.hooks linkids
          { wmessages := s.wmessages, sent := [], env := env, effects := [] } with
        | (acc, true) => ({ s with wmessages := acc.wmessages }, acc.effects, true)
        | (acc, false) =>
          if acc.sent.isEmpty then
            ({ s with wmessages := acc.wmessages }, acc.effects, false)
          else
            ({ s with
                wmessages := acc.wmessages.insert message.id message.id
                message_cache := s.message_cache.insert message.id
                  (acc.sent ++ [(message.channelId, message)]) },
              acc.effects, false)) := by
  have hie : ¬ (linkids.isEmpty = true) := by
    rw [List.isEmpty_iff]
    exact hne
  simp only [on_message, hl0, Option.getD_some]
  rw [if_neg (by rw [hwk]; exact Bool.false_ne_true), if_neg hie]

/-- Fixture: two links (ids 1 and 2) both containing channels 100 and 200,
built through reload_links from the membership records, and the webhook
messages the platform returns for the two sends. -/
def exDupState : EngineState :=
  (reload_links initState (some [(1, 100), (1, 200), (2, 100), (2, 200)])
    (fun c => some c)).1

def exW1 : Msg := { id := 20, channelId := 200, content := "hi", webhookId := some 9 }

def exW2 : Msg := { id := 21, channelId := 200, content := "hi", webhookId := some 9 }

/-- C1 counterexample: with two links sharing the channel pair (100, 200), a
non-relay message posted in channel 100 is posted twice into channel 200,
once per link, not exactly once as the claim states: the fan-out loop
performs no cross-link de-duplication of destination channels. -/
theorem c1_counterexample :
    exDupState.channel_links = [(100, [1, 2]), (200, [1, 2])] ∧
    exDupState.link_channels = [(1, [100, 200]), (2, [100, 200])] ∧
    (on_message exDupState exOrig
      [SendOutcome.ok exW1, SendOutcome.ok exW2]).2.2 = false ∧
    postCount (on_message exDupState exOrig
      [SendOutcome.ok exW1, SendOutcome.ok exW2]).2.1 200 = 2 := by
  refine ⟨rfl, rfl, rfl, rfl⟩

/-- C1 amended: for a non-relay message in a linked channel, with every link
id resolvable, duplicate-free member lists, a webhook for every destination
and all sends succeeding, the fan-out does not abort, never posts into the
origin channel, and posts into each other channel exactly one copy per link
containing both that channel and the origin: a destination channel sharing
several links with the origin receives one copy per shared link rather than
a single de-duplicated copy per origin message. -/
theorem c1_fanout_per_link (s : EngineState) (message : Msg)
    (linkids : List Nat) (msgs : List Msg)
    (hwk : truthyOpt message.webhookId = false)
    (hl0 : alookup s.channel_links message.channelId = some linkids)
    (hne : linkids ≠ [])
    (hlk : ∀ l ∈ linkids, (alookup s.link_channels l).isSome = true)
    (hnd : ∀ l ∈ linkids, ((alookup s.link_channels l).getD []).Nodup)
    (hh : ∀ l ∈ linkids, ∀ c ∈ (alookup s.link_channels l).getD [],
      c ≠ message.channelId → (alookup s.hooks c).isSome = true)
    (hlen : (fanoutDests s message.channelId).length ≤ msgs.length) :
    (on_message s message (msgs.map SendOutcome.ok)).2.2 = false ∧
    postCount (on_message s message (msgs.map SendOutcome.ok)).2.1
      message.channelId = 0 ∧
    (∀ c, c ≠ message.channelId →
      postCount (on_message s message (msgs.map SendOutcome.ok)).2.1 c =
        (linkids.filter (fun l =>
          decide (c ∈ (alookup s.link_channels l).getD []))).length) := by
  have hdests : fanoutDests s message.channelId =
      linkids.flatMap (fun l => ((alookup s.link_channels l).getD []).filter
        (fun c => c != message.channelId)) := by
    rw [fanoutDests, hl0]
    rfl
  have hco := fanoutLinks_ok message s.link_channels s.hooks linkids
    { wmessages := s.wmessages, sent := [], env := msgs.map SendOutcome.ok,
      effects := [] }
    msgs [] hlk hh (by simp) (by rw [← hdests]; exact hlen)
  cases hfl : fanoutLinks message s.link_channels s.hooks linkids
      { wmessages := s.wmessages, sent := [], env := msgs.map SendOutcome.ok,
        effects := [] } with
  | mk acc ab =>
    rw [hfl] at hco
    cases ab with
    | true => exact absurd hco.1 (by simp)
    | false =>
      have heffs : acc.effects = (fanoutDests s message.channelId).map
          (fun c => Effect.post c message.content) := by
        have := hco.2.1
        rw [← hdests] at this
        simpa using this
      have heq : (on_message s message (msgs.map SendOutcome.ok)).2 =
          (acc.effects, false) := by
        simp only [on_message_char s message (msgs.map SendOutcome.ok) linkids
          hwk hl0 hne, hfl]
        split <;> rfl
      refine ⟨by rw [heq], ?_, ?_⟩
      · rw [heq]
        show postCount acc.effects message.channelId = 0
        rw [heffs, postCount_map_post, List.count_eq_zero]
        exact not_origin_mem_dests s message.channelId
      · intro c hcne
        rw [heq]
        show postCount acc.effects c = _
        rw [heffs, postCount_map_post, hdests]
        exact count_flatMap_dests s.link_channels message.channelId c hcne
          linkids hnd

/-- C1 amended witness: channel 200 shares two links with channel 100 and
receives two copies of the concrete message. -/
theorem c1_fanout_per_link_witness :
    postCount (on_message exDupState exOrig
      ([exW1, exW2].map SendOutcome.ok)).2.1 200 = 2 := by
  have h := (c1_fanout_per_link exDupState exOrig [1, 2] [exW1, exW2]
    (by decide) (by decide) (by decide) (by decide) (by decide) (by decide)
    (by decide)).2.2 200 (by decide)
  rw [h]
  decide

theorem fanoutChans_err_acc (message : Msg) (hooks : List (Nat × Nat))
    (chans : List Nat) :
    ∀ (acc : FanoutAcc) (tail : List SendOutcome),
    acc.env = SendOutcome.err :: tail →
    (fanoutChans message hooks chans acc).1 = acc := by
  induction chans with
  | nil => intro acc tail he; rfl
  | cons c rest ih =>
    intro acc tail he
    by_cases hc : (c == message.channelId) = true
    · rw [fanoutChans_cons_skip message hooks c rest acc hc]
      exact ih acc tail he
    · cases hh : alookup hooks c with
      | none => simp [fanoutChans, hc, hh]
      | some h =>
        rw [fanoutChans_cons_err message hooks c rest acc tail hc
          (by rw [hh]; rfl) he]

theorem fanoutLinks_err_acc (message : Msg)
    (link_channels : List (Nat × List Nat)) (hooks : List (Nat × Nat))
    (linkids : List Nat) :
    ∀ (acc : FanoutAcc) (tail : List SendOutcome),
    acc.env = SendOutcome.err :: tail →
    (fanoutLinks message link_channels hooks linkids acc).1 = acc := by
  induction linkids with
  | nil => intro acc tail he; rfl
  | cons l rest ih =>
    intro acc tail he
    cases hl : alookup link_channels l with
    | none => simp [fanoutLinks, hl]
    | some chans =>
      have hch := fanoutChans_err_acc message hooks chans acc tail he
      cases hfc : fanoutChans message hooks chans acc with
      | mk acc2 ab =>
        rw [hfc] at hch
        simp only [fanoutLinks, hl, hfc]
        cases ab with
        | true => exact hch
        | false =>
          have hacc : acc2 = acc := hch
          rw [hacc]
          exact ih acc tail he

theorem fanoutChans_fail (message : Msg) (hooks : List (Nat × Nat))
    (chans : List Nat) :
    ∀ (acc : FanoutAcc) (msgs : List Msg) (tail : List SendOutcome),
    (∀ c ∈ chans, c ≠ message.channelId → (alookup hooks c).isSome = true) →
    acc.env = msgs.map SendOutcome.ok ++ SendOutcome.err :: tail →
    msgs.length < (chans.filter (fun c => c != message.channelId)).length →
    (fanoutChans message hooks chans acc).2 = true ∧
    (fanoutChans message hooks chans acc).1.effects = acc.effects ++
      ((chans.filter (fun c => c != message.channelId)).take msgs.length).map
        (fun c => Effect.post c message.content) := by
  induction chans with
  | nil => intro acc msgs tail hh he hl; simp at hl
  | cons c rest ih =>
    intro acc msgs tail hh he hl
    by_cases hc : c = message.channelId
    · have hcb : (c == message.channelId) = true := by simp [hc]
      have hfc : ((c :: rest).filter (fun x => x != message.channelId)) =
          rest.filter (fun x => x != message.channelId) := by
        simp [List.filter_cons, hc]
      rw [fanoutChans_cons_skip message hooks c rest acc hcb, hfc]
      exact ih acc msgs tail (fun x hx => hh x (List.mem_cons_of_mem c hx)) he
        (by rw [← hfc]; exact hl)
    · have hcb : ¬ (c == message.channelId) = true := by simp [hc]
      have hfc : ((c :: rest).filter (fun x => x != message.channelId)) =
          c :: rest.filter (fun x => x != message.channelId) := by
        simp [List.filter_cons, hc]
      rw [hfc] at hl ⊢
      cases msgs with
      | nil =>
        have he2 : acc.env = SendOutcome.err :: tail := by simpa using he
        rw [fanoutChans_cons_err message hooks c rest acc tail hcb
          (hh c (List.mem_cons_self c rest) hc) he2]
        exact ⟨rfl, by simp⟩
      | cons m msgs2 =>
        have he2 : acc.env = SendOutcome.ok m ::
            (msgs2.map SendOutcome.ok ++ SendOutcome.err :: tail) := by
          simpa using he
        rw [fanoutChans_cons_send message hooks c rest acc m
          (msgs2.map SendOutcome.ok ++ SendOutcome.err :: tail) hcb
          (hh c (List.mem_cons_self c rest) hc) he2]
        have ihr := ih
          { wmessages := acc.wmessages.insert m.id message.id
            sent := acc.sent ++ [(c, m)]
            env := msgs2.map SendOutcome.ok ++ SendOutcome.err :: tail
            effects := acc.effects ++ [Effect.post c message.content] }
          msgs2 tail (fun x hx => hh x (List.mem_cons_of_mem c hx)) rfl
          (by simp at hl; omega)
        refine ⟨ihr.1, ?_⟩
        rw [ihr.2]
        simp [List.take_succ_cons]

theorem fanoutLinks_fail (message : Msg)
    (link_channels : List (Nat × List Nat)) (hooks : List (Nat × Nat))
    (linkids : List Nat) :
    ∀ (acc : FanoutAcc) (msgs : List Msg) (tail : List SendOutcome),
    (∀ l ∈ linkids, (alookup link_channels l).isSome = true) →
    (∀ l ∈ linkids, ∀ c ∈ (alookup link_channels l).getD [],
      c ≠ message.channelId → (alookup hooks c).isSome = true) →
    acc.env = msgs.map SendOutcome.ok ++ SendOutcome.err :: tail →
    msgs.length < (linkids.flatMap (fun l =>
      ((alookup link_channels l).getD []).filter
        (fun c => c != message.channelId))).length →
    (fanoutLinks message link_channels hooks linkids acc).2 = true ∧
    (fanoutLinks message link_channels hooks linkids acc).1.effects =
      acc.effects ++
      ((linkids.flatMap (fun l => ((alookup link_channels l).getD []).filter
        (fun c => c != message.channelId))).take msgs.length).map
        (fun c => Effect.post c message.content) := by
  induction linkids with
  | nil => intro acc msgs tail hlk hh he hl; simp at hl
  | cons l rest ih =>
    intro acc msgs tail hlk hh he hl
    obtain ⟨chans, hchans⟩ := Option.isSome_iff_exists.1
      (hlk l (List.mem_cons_self l rest))
    have hgd : (alookup link_channels l).getD [] = chans := by
      rw [hchans]
      rfl
    rw [List.flatMap_cons, hgd] at hl ⊢
    by_cases hsplit : msgs.length <
        (chans.filter (fun c => c != message.channelId)).length
    · have hfail := fanoutChans_fail message hooks chans acc msgs tail
        (fun c hcm hcn => hh l (List.mem_cons_self l rest) c (hgd ▸ hcm) hcn)
        he hsplit
      cases hfc : fanoutChans message hooks chans acc with
      | mk acc2 ab =>
        rw [hfc] at hfail
        cases ab with
        | false => exact absurd hfail.1 (by simp)
        | true =>
          simp only [fanoutLinks, hchans, hfc]
          refine ⟨by trivial, ?_⟩
          rw [hfail.2]
          rw [List.take_append_eq_append_take,
            show msgs.length -
              (chans.filter (fun c => c != message.channelId)).length = 0 by omega,
            List.take_zero, List.append_nil]
    · have hle : (chans.filter (fun c => c != message.channelId)).length ≤
          msgs.length := by omega
      have hok := fanoutChans_ok message hooks chans acc msgs
        (SendOutcome.err :: tail)
        (fun c hcm hcn => hh l (List.mem_cons_self l rest) c (hgd ▸ hcm) hcn)
        he hle
      cases hfc : fanoutChans message hooks chans acc with
      | mk acc2 ab =>
        rw [hfc] at hok
        cases ab with
        | true => exact absurd hok.1 (by simp)
        | false =>
          simp only [fanoutLinks, hchans, hfc]
          have ihr := ih acc2 (msgs.drop (chans.filter
              (fun c => c != message.channelId)).length) tail
            (fun x hx => hlk x (List.mem_cons_of_mem l hx))
            (fun x hx => hh x (List.mem_cons_of_mem l hx))
            hok.2.2.2
            (by simp at hl ⊢; omega)
          refine ⟨ihr.1, ?_⟩
          rw [ihr.2, hok.2.1]
          rw [List.take_append_eq_append_take,
            List.take_of_length_le hle, List.map_append, List.length_drop]
          simp

/-- Fixture: one link (id 1) with member channels 100, 200 and 300, built
through reload_links. -/
def exTriState : EngineState :=
  (reload_links initState (some [(1, 100), (1, 200), (1, 300)])
    (fun c => some c)).1

/-- C2 counterexample: in a link with channels 100, 200, 300, a message in
100 whose first send (to destination 200) fails aborts the whole fan-out:
the handler raises (aborted flag), and the remaining healthy destination 300
receives no copy, contradicting the claim that a failing destination is
skipped while every remaining destination still receives its copy. -/
theorem c2_counterexample :
    fanoutDests exTriState 100 = [200, 300] ∧
    (on_message exTriState exOrig
      [SendOutcome.err, SendOutcome.ok exW1]).2.2 = true ∧
    (on_message exTriState exOrig
      [SendOutcome.err, SendOutcome.ok exW1]).2.1 = [] ∧
    postCount (on_message exTriState exOrig
      [SendOutcome.err, SendOutcome.ok exW1]).2.1 300 = 0 := by
  refine ⟨rfl, rfl, rfl, rfl⟩

/-- C2 amended: a failed post aborts the fan-out instead of being skipped.
Precisely: (a) whenever on_message aborts, no forward correlation is
recorded; (b) if the very first send fails, zero destinations succeeded and
neither cache changes at all (the whole state is unchanged and nothing was
posted); (c) if the first failure comes after n successful sends, the
handler aborts having posted exactly to the first n destinations of the
fan-out list, the destinations after the failing one receive nothing, and no
forward correlation is recorded. -/
theorem c2_fanout_abort_on_failure :
    (∀ (s : EngineState) (m : Msg) (env : List SendOutcome),
      (on_message s m env).2.2 = true →
      (on_message s m env).1.message_cache = s.message_cache) ∧
    (∀ (s : EngineState) (m : Msg) (tail : List SendOutcome),
      (on_message s m (SendOutcome.err :: tail)).1 = s ∧
      (on_message s m (SendOutcome.err :: tail)).2.1 = []) ∧
    (∀ (s : EngineState) (message : Msg) (linkids : List Nat)
      (msgs : List Msg) (tail : List SendOutcome),
      truthyOpt message.webhookId = false →
      alookup s.channel_links message.channelId = some linkids →
      linkids ≠ [] →
      (∀ l ∈ linkids, (alookup s.link_channels l).isSome = true) →
      (∀ l ∈ linkids, ∀ c ∈ (alookup s.link_channels l).getD [],
        c ≠ message.channelId → (alookup s.hooks c).isSome = true) →
      msgs.length < (fanoutDests s message.channelId).length →
      (on_message s message
        (msgs.map SendOutcome.ok ++ SendOutcome.err :: tail)).2.2 = true ∧
      (on_message s message
        (msgs.map SendOutcome.ok ++ SendOutcome.err :: tail)).2.1 =
        ((fanoutDests s message.channelId).take msgs.length).map
          (fun c => Effect.post c message.content) ∧
      (on_message s message
        (msgs.map SendOutcome.ok ++ SendOutcome.err ::
          tail)).1.message_cache = s.message_cache) := by
  refine ⟨?_, ?_, ?_⟩
  · intro s m env h
    simp only [on_message] at h ⊢
    by_cases hwk : truthyOpt m.webhookId = true
    · rw [if_pos hwk] at h
      exact Bool.noConfusion h
    · rw [if_neg hwk] at h ⊢
      by_cases hie : ((alookup s.channel_links m.channelId).getD []).isEmpty = true
      · rw [if_pos hie] at h
        exact Bool.noConfusion h
      · rw [if_neg hie] at h ⊢
        cases hfl : fanoutLinks m s.link_channels s.hooks
            ((alookup s.channel_links m.channelId).getD [])
            { wmessages := s.wmessages, sent := [], env := env, effects := [] } with
        | mk acc ab =>
          rw [hfl] at h
          cases ab with
          | true => rfl
          | false =>
            by_cases hse : acc.sent.isEmpty = true
            · simp [hse] at h
            · simp [hse] at h
  · intro s m tail
    simp only [on_message]
    by_cases hwk : truthyOpt m.webhookId = true
    · rw [if_pos hwk]
      exact ⟨rfl, rfl⟩
    · rw [if_neg hwk]
      by_cases hie : ((alookup s.channel_links m.channelId).getD []).isEmpty = true
      · rw [if_pos hie]
        exact ⟨rfl, rfl⟩
      · rw [if_neg hie]
        have hacc := fanoutLinks_err_acc m s.link_channels s.hooks
          ((alookup s.channel_links m.channelId).getD [])
          { wmessages := s.wmessages, sent := [], env := SendOutcome.err :: tail,
            effects := [] } tail rfl
        cases hfl : fanoutLinks m s.link_channels s.hooks
            ((alookup s.channel_links m.channelId).getD [])
            { wmessages := s.wmessages, sent := [], env := SendOutcome.err :: tail,
              effects := [] } with
        | mk acc ab =>
          rw [hfl] at hacc
          have hacc2 : acc = ⟨s.wmessages, [], SendOutcome.err :: tail, []⟩ :=
            hacc
          cases ab with
          | true =>
            rw [hacc2]
            exact ⟨rfl, rfl⟩
          | false =>
            rw [hacc2]
            exact ⟨rfl, rfl⟩
  · intro s message linkids msgs tail hwk hl0 hne hlk hh hlen
    have hdests : fanoutDests s message.channelId =
        linkids.flatMap (fun l => ((alookup s.link_channels l).getD []).filter
          (fun c => c != message.channelId)) := by
      rw [fanoutDests, hl0]
      rfl
    have hfail := fanoutLinks_fail message s.link_channels s.hooks linkids
      { wmessages := s.wmessages, sent := [],
        env := msgs.map SendOutcome.ok ++ SendOutcome.err :: tail, effects := [] }
      msgs tail hlk hh rfl (by rw [← hdests]; exact hlen)
    cases hfl : fanoutLinks message s.link_channels s.hooks linkids
        { wmessages := s.wmessages, sent := [],
          env := msgs.map SendOutcome.ok ++ SendOutcome.err :: tail,
          effects := [] } with
    | mk acc ab =>
      rw [hfl] at hfail
      cases ab with
      | false => exact absurd hfail.1 (by simp)
      | true =>
        have heq : on_message s message
            (msgs.map SendOutcome.ok ++ SendOutcome.err :: tail) =
            ({ s with wmessages := acc.wmessages }, acc.effects, true) := by
          simp only [on_message_char s message
            (msgs.map SendOutcome.ok ++ SendOutcome.err :: tail) linkids
            hwk hl0 hne, hfl]
        rw [heq]
        refine ⟨rfl, ?_, rfl⟩
        have := hfail.2
        rw [← hdests] at this
        simpa using this

/-- C2 amended witness: with destinations 200 and 300, one successful send
then a failure posts exactly one copy (to 200), aborts, and records no
forward correlation. -/
theorem c2_fanout_abort_on_failure_witness :
    (on_message exTriState exOrig
      ([exW1].map SendOutcome.ok ++ SendOutcome.err :: [])).2.2 = true ∧
    (on_message exTriState exOrig
      ([exW1].map SendOutcome.ok ++ SendOutcome.err :: [])).2.1 =
      [Effect.post 200 "hi"] ∧
    (on_message exTriState exOrig
      ([exW1].map SendOutcome.ok ++
        SendOutcome.err :: [])).1.message_cache = exTriState.message_cache := by
  have h := c2_fanout_abort_on_failure.2.2 exTriState exOrig [1] [exW1] []
    (by decide) (by decide) (by decide) (by decide) (by decide) (by decide)
  refine ⟨h.1, ?_, h.2.2⟩
  rw [h.2.1]
  decide

/-! ### The reverse-to-forward correlation invariant -/

theorem contains_false_of_not_mem (l : List Nat) (a : Nat) (h : ¬ a ∈ l) :
    l.contains a = false := by
  cases hc : l.contains a with
  | false => rfl
  | true => exact absurd (List.mem_of_elem_eq_true hc) h

theorem not_mem_of_contains_false (l : List Nat) (a : Nat)
    (h : l.contains a = false) : ¬ a ∈ l := by
  intro hm
  have h2 : List.elem a l = true := List.elem_eq_true_of_mem hm
  rw [show List.elem a l = l.contains a from rfl, h] at h2
  exact Bool.noConfusion h2

/-- Every id in the reverse index maps to an origin that either has a
forward entry now or is recorded in the ghost list of removed or
never-recorded forward keys. -/
def revFwdInv (s : EngineState) (ghost : List Nat) : Prop :=
  ∀ k o, s.wmessages.lookup k = some o →
    (s.message_cache.lookup o).isSome = true ∨ o ∈ ghost

/-- Both correlation caches have duplicate-free key lists (true of every
reachable state; needed because lookups return the first matching entry). -/
def goodState (s : EngineState) : Prop :=
  (akeys s.message_cache.entries).Nodup ∧ (akeys s.wmessages.entries).Nodup

theorem fwd_isSome_iff_mem (s : EngineState) (k : Nat) :
    (s.message_cache.lookup k).isSome = true ↔ k ∈ fwdKeys s :=
  alookup_isSome_iff s.message_cache.entries k

theorem removed_or_present (s s2 : EngineState) (o : Nat)
    (h : (s.message_cache.lookup o).isSome = true) :
    (s2.message_cache.lookup o).isSome = true ∨
      o ∈ (fwdKeys s).filter (fun k => !((fwdKeys s2).contains k)) := by
  by_cases h2 : (s2.message_cache.lookup o).isSome = true
  · exact Or.inl h2
  · right
    rw [List.mem_filter]
    refine ⟨(fwd_isSome_iff_mem s o).1 h, ?_⟩
    have hnm : ¬ o ∈ fwdKeys s2 := fun hm => h2 ((fwd_isSome_iff_mem s2 o).2 hm)
    rw [contains_false_of_not_mem _ _ hnm]
    rfl

theorem mem_ghostStep_of_mem (s s2 : EngineState) (ab : Bool) (oid : Nat)
    (ghost : List Nat) (o : Nat) (h : o ∈ ghost) :
    o ∈ ghostStep s s2 ab oid ghost :=
  List.mem_append_left _ (List.mem_append_left _ h)

theorem mem_ghostStep_of_removed (s s2 : EngineState) (ab : Bool) (oid : Nat)
    (ghost : List Nat) (o : Nat)
    (h : o ∈ (fwdKeys s).filter (fun k => !((fwdKeys s2).contains k))) :
    o ∈ ghostStep s s2 ab oid ghost :=
  List.mem_append_left _ (List.mem_append_right _ h)

theorem mem_ghostStep_of_aborted (s s2 : EngineState) (oid : Nat)
    (ghost : List Nat) :
    oid ∈ ghostStep s s2 true oid ghost := by
  refine List.mem_append_right _ ?_
  simp

/-- Generic invariant-preservation step for handlers that leave the reverse
index untouched. -/
theorem inv_of_wm_eq (s s2 : EngineState) (ab : Bool) (oid : Nat)
    (ghost : List Nat) (hwm : s2.wmessages = s.wmessages)
    (hinv : revFwdInv s ghost) :
    revFwdInv s2 (ghostStep s s2 ab oid ghost) := by
  intro k o hk
  rw [hwm] at hk
  rcases hinv k o hk with h | h
  · rcases removed_or_present s s2 o h with h2 | h2
    · exact Or.inl h2
    · exact Or.inr (mem_ghostStep_of_removed s s2 ab oid ghost o h2)
  · exact Or.inr (mem_ghostStep_of_mem s s2 ab oid ghost o h)

theorem fanoutChans_wm_nodup (message : Msg) (hooks : List (Nat × Nat))
    (chans : List Nat) :
    ∀ (acc : FanoutAcc), (akeys acc.wmessages.entries).Nodup →
    (akeys (fanoutChans message hooks chans acc).1.wmessages.entries).Nodup := by
  induction chans with
  | nil => intro acc hnd; exact hnd
  | cons c rest ih =>
    intro acc hnd
    by_cases hc : (c == message.channelId) = true
    · rw [fanoutChans_cons_skip message hooks c rest acc hc]
      exact ih acc hnd
    · cases hh : alookup hooks c with
      | none => simpa [fanoutChans, hc, hh] using hnd
      | some h =>
        cases he : acc.env with
        | nil => simpa [fanoutChans, hc, hh, he] using hnd
        | cons outc envRest =>
          cases outc with
          | err => simpa [fanoutChans, hc, hh, he] using hnd
          | ok m =>
            rw [fanoutChans_cons_send message hooks c rest acc m envRest hc
              (by rw [hh]; rfl) he]
            exact ih _ (FIFOCache.insert_nodup _ _ _ hnd)

theorem fanoutChans_wm_sub (message : Msg) (hooks : List (Nat × Nat))
    (chans : List Nat) :
    ∀ (acc : FanoutAcc), (akeys acc.wmessages.entries).Nodup →
    ∀ k o, (fanoutChans message hooks chans acc).1.wmessages.lookup k = some o →
    acc.wmessages.lookup k = some o ∨ o = message.id := by
  induction chans with
  | nil => intro acc hnd k o hk; exact Or.inl hk
  | cons c rest ih =>
    intro acc hnd k o hk
    by_cases hc : (c == message.channelId) = true
    · rw [fanoutChans_cons_skip message hooks c rest acc hc] at hk
      exact ih acc hnd k o hk
    · cases hh : alookup hooks c with
      | none =>
        simp only [fanoutChans, hc, hh] at hk
        exact Or.inl (by simpa using hk)
      | some h =>
        cases he : acc.env with
        | nil =>
          simp only [fanoutChans, hc, hh, he] at hk
          exact Or.inl (by simpa using hk)
        | cons outc envRest =>
          cases outc with
          | err =>
            simp only [fanoutChans, hc, hh, he] at hk
            exact Or.inl (by simpa using hk)
          | ok m =>
            rw [fanoutChans_cons_send message hooks c rest acc m envRest hc
              (by rw [hh]; rfl) he] at hk
            rcases ih _ (FIFOCache.insert_nodup _ _ _ hnd) k o hk with h2 | h2
            · rcases FIFOCache.insert_lookup_sub acc.wmessages k m.id
                message.id o hnd h2 with ⟨_, h3⟩ | h3
              · exact Or.inr h3
              · exact Or.inl h3
            · exact Or.inr h2

theorem fanoutChans_sent_ext (message : Msg) (hooks : List (Nat × Nat))
    (chans : List Nat) :
    ∀ (acc : FanoutAcc), ∃ extra,
    (fanoutChans message hooks chans acc).1.sent = acc.sent ++ extra ∧
    (extra = [] → (fanoutChans message hooks chans acc).1.wmessages =
      acc.wmessages) := by
  induction chans with
  | nil => intro acc; exact ⟨[], by simp [fanoutChans], fun _ => rfl⟩
  | cons c rest ih =>
    intro acc
    by_cases hc : (c == message.channelId) = true
    · rw [fanoutChans_cons_skip message hooks c rest acc hc]
      exact ih acc
    · cases hh : alookup hooks c with
      | none =>
        refine ⟨[], ?_, fun _ => ?_⟩ <;> simp [fanoutChans, hc, hh]
      | some h =>
        cases he : acc.env with
        | nil =>
          refine ⟨[], ?_, fun _ => ?_⟩ <;> simp [fanoutChans, hc, hh, he]
        | cons outc envRest =>
          cases outc with
          | err =>
            refine ⟨[], ?_, fun _ => ?_⟩ <;> simp [fanoutChans, hc, hh, he]
          | ok m =>
            rw [fanoutChans_cons_send message hooks c rest acc m envRest hc
              (by rw [hh]; rfl) he]
            obtain ⟨extra, hext, _⟩ := ih
              { wmessages := acc.wmessages.insert m.id message.id
                sent := acc.sent ++ [(c, m)]
                env := envRest
                effects := acc.effects ++ [Effect.post c message.content] }
            refine ⟨(c, m) :: extra, ?_, fun hcon => absurd hcon (by simp)⟩
            rw [hext]
            simp

theorem fanoutLinks_wm_nodup (message : Msg)
    (link_channels : List (Nat × List Nat)) (hooks : List (Nat × Nat))
    (linkids : List Nat) :
    ∀ (acc : FanoutAcc), (akeys acc.wmessages.entries).Nodup →
    (akeys (fanoutLinks message link_channels hooks linkids
      acc).1.wmessages.entries).Nodup := by
  induction linkids with
  | nil => intro acc hnd; exact hnd
  | cons l rest ih =>
    intro acc hnd
    cases hl : alookup link_channels l with
    | none => simpa [fanoutLinks, hl] using hnd
    | some chans =>
      have hch := fanoutChans_wm_nodup message hooks chans acc hnd
      cases hfc : fanoutChans message hooks chans acc with
      | mk acc2 ab =>
        rw [hfc] at hch
        simp only [fanoutLinks, hl, hfc]
        cases ab with
        | true => exact hch
        | false => exact ih acc2 hch

theorem fanoutLinks_wm_sub (message : Msg)
    (link_channels : List (Nat × List Nat)) (hooks : List (Nat × Nat))
    (linkids : List Nat) :
    ∀ (acc : FanoutAcc), (akeys acc.wmessages.entries).Nodup →
    ∀ k o, (fanoutLinks message link_channels hooks linkids
      acc).1.wmessages.lookup k = some o →
    acc.wmessages.lookup k = some o ∨ o = message.id := by
  induction linkids with
  | nil => intro acc hnd k o hk; exact Or.inl hk
  | cons l rest ih =>
    intro acc hnd k o hk
    cases hl : alookup link_channels l with
    | none =>
      simp only [fanoutLinks, hl] at hk
      exact Or.inl (by simpa using hk)
    | some chans =>
      have hnd2 := fanoutChans_wm_nodup message hooks chans acc hnd
      cases hfc : fanoutChans message hooks chans acc with
      | mk acc2 ab =>
        rw [hfc] at hnd2
        simp only [fanoutLinks, hl, hfc] at hk
        cases ab with
        | true =>
          have hsub := fanoutChans_wm_sub message hooks chans acc hnd k o
            (by rw [hfc]; simpa using hk)
          exact hsub
        | false =>
          rcases ih acc2 hnd2 k o (by simpa using hk) with h2 | h2
          · exact fanoutChans_wm_sub message hooks chans acc hnd k o
              (by rw [hfc]; exact h2)
          · exact Or.inr h2

theorem fanoutLinks_sent_ext (message : Msg)
    (link_channels : List (Nat × List Nat)) (hooks : List (Nat × Nat))
    (linkids : List Nat) :
    ∀ (acc : FanoutAcc), ∃ extra,
    (fanoutLinks message link_channels hooks linkids acc).1.sent =
      acc.sent ++ extra ∧
    (extra = [] → (fanoutLinks message link_channels hooks linkids
      acc).1.wmessages = acc.wmessages) := by
  induction linkids with
  | nil => intro acc; exact ⟨[], by simp [fanoutLinks], fun _ => rfl⟩
  | cons l rest ih =>
    intro acc
    cases hl : alookup link_channels l with
    | none =>
      refine ⟨[], ?_, fun _ => ?_⟩ <;> simp [fanoutLinks, hl]
    | some chans =>
      obtain ⟨e1, he1, hw1⟩ := fanoutChans_sent_ext message hooks chans acc
      cases hfc : fanoutChans message hooks chans acc with
      | mk acc2 ab =>
        rw [hfc] at he1 hw1
        simp only [fanoutLinks, hl, hfc]
        cases ab with
        | true => exact ⟨e1, he1, hw1⟩
        | false =>
          obtain ⟨e2, he2, hw2⟩ := ih acc2
          refine ⟨e1 ++ e2, ?_, fun hcon => ?_⟩
          · rw [he2, he1]
            simp
          · have h1 : e1 = [] := by
              cases e1 with
              | nil => rfl
              | cons x t => simp at hcon
            have h2 : e2 = [] := by
              cases e2 with
              | nil => rfl
              | cons x t => simp [h1] at hcon
            rw [hw2 h2, hw1 h1]

theorem on_message_edit_wm (s : EngineState) (b a : Msg) (env : Nat → Bool) :
    (on_message_edit s b a env).1.wmessages = s.wmessages := by
  simp only [on_message_edit]
  split <;> rfl

theorem on_message_delete_wm (s : EngineState) (m : Msg) (env : Nat → Bool) :
    (on_message_delete s m env).1.wmessages = s.wmessages := by
  simp only [on_message_delete]
  split <;> rfl

theorem on_reaction_add_state (s : EngineState) (ev : ReactionEvent)
    (env : Nat → Bool) : (on_reaction_add s ev env).1 = s := by
  simp only [on_reaction_add]
  split <;> rfl

theorem reload_links_caches (s : EngineState) (f : Option (List (Nat × Nat)))
    (he : Nat → Option Nat) :
    (reload_links s f he).1.message_cache = s.message_cache ∧
    (reload_links s f he).1.wmessages = s.wmessages := by
  cases f with
  | none => exact ⟨rfl, rfl⟩
  | some records =>
    simp only [reload_links]
    cases hp : provisionHooks he
        (akeys (records.foldl (fun m r => addToMultiMap m r.2 r.1) []))
        s.hooks with
    | mk hooks2 ok =>
      cases ok with
      | false => exact ⟨rfl, rfl⟩
      | true => exact ⟨rfl, rfl⟩

theorem on_message_edit_good (s : EngineState) (b a : Msg) (env : Nat → Bool)
    (hg : goodState s) : goodState (on_message_edit s b a env).1 := by
  obtain ⟨h1, h2⟩ := hg
  simp only [on_message_edit]
  split
  · exact ⟨FIFOCache.pop_nodup _ _ h1, h2⟩
  · exact ⟨FIFOCache.insert_nodup _ _ _ (FIFOCache.pop_nodup _ _ h1), h2⟩

theorem on_message_delete_good (s : EngineState) (m : Msg) (env : Nat → Bool)
    (hg : goodState s) : goodState (on_message_delete s m env).1 := by
  obtain ⟨h1, h2⟩ := hg
  simp only [on_message_delete]
  split
  · exact ⟨FIFOCache.pop_nodup _ _ h1, h2⟩
  · exact ⟨h1, h2⟩

theorem on_message_inv (s : EngineState) (m : Msg) (env : List SendOutcome)
    (ghost : List Nat) (hg : goodState s) (hinv : revFwdInv s ghost) :
    revFwdInv (on_message s m env).1
      (ghostStep s (on_message s m env).1 (on_message s m env).2.2 m.id
        ghost) ∧
    goodState (on_message s m env).1 := by
  obtain ⟨hgm, hgw⟩ := hg
  by_cases hwk : truthyOpt m.webhookId = true
  · have heq : on_message s m env = (s, [], false) := by
      simp only [on_message]
      rw [if_pos hwk]
    rw [heq]
    exact ⟨inv_of_wm_eq s s false m.id ghost rfl hinv, hgm, hgw⟩
  · by_cases hie : ((alookup s.channel_links m.channelId).getD []).isEmpty = true
    · have heq : on_message s m env = (s, [], false) := by
        simp only [on_message]
        rw [if_neg hwk, if_pos hie]
      rw [heq]
      exact ⟨inv_of_wm_eq s s false m.id ghost rfl hinv, hgm, hgw⟩
    · cases hfl : fanoutLinks m s.link_channels s.hooks
          ((alookup s.channel_links m.channelId).getD [])
          { wmessages := s.wmessages, sent := [], env := env, effects := [] } with
      | mk acc ab =>
        have hndacc : (akeys acc.wmessages.entries).Nodup := by
          have h := fanoutLinks_wm_nodup m s.link_channels s.hooks
            ((alookup s.channel_links m.channelId).getD [])
            { wmessages := s.wmessages, sent := [], env := env, effects := [] }
            hgw
          rw [hfl] at h
          exact h
        have hsub : ∀ k o, acc.wmessages.lookup k = some o →
            s.wmessages.lookup k = some o ∨ o = m.id := by
          intro k o hk
          exact fanoutLinks_wm_sub m s.link_channels s.hooks
            ((alookup s.channel_links m.channelId).getD [])
            { wmessages := s.wmessages, sent := [], env := env, effects := [] }
            hgw k o (by rw [hfl]; exact hk)
        cases ab with
        | true =>
          have heq : on_message s m env =
              ({ s with wmessages := acc.wmessages }, acc.effects, true) := by
            simp only [on_message]
            rw [if_neg hwk, if_neg hie, hfl]
          rw [heq]
          refine ⟨?_, hgm, hndacc⟩
          intro k o hk
          rcases hsub k o hk with h2 | h2
          · rcases hinv k o h2 with h3 | h3
            · rcases removed_or_present s
                  { s with wmessages := acc.wmessages } o h3 with h4 | h4
              · exact Or.inl h4
              · exact Or.inr (mem_ghostStep_of_removed _ _ _ _ ghost o h4)
            · exact Or.inr (mem_ghostStep_of_mem _ _ _ _ ghost o h3)
          · subst h2
            exact Or.inr (mem_ghostStep_of_aborted _ _ m.id ghost)
        | false =>
          obtain ⟨extra, hext1, hext2⟩ := fanoutLinks_sent_ext m
            s.link_channels s.hooks
            ((alookup s.channel_links m.channelId).getD [])
            { wmessages := s.wmessages, sent := [], env := env, effects := [] }
          rw [hfl] at hext1 hext2
          by_cases hse : acc.sent.isEmpty = true
          · have hwmeq : acc.wmessages = s.wmessages := by
              have hnil : acc.sent = [] := List.isEmpty_iff.1 hse
              have hex : extra = [] := by
                have h5 : acc.sent = extra := by simpa using hext1
                rw [hnil] at h5
                exact h5.symm
              exact hext2 hex
            have heq : on_message s m env =
                ({ s with wmessages := acc.wmessages }, acc.effects, false) := by
              simp only [on_message]
              rw [if_neg hwk, if_neg hie, hfl]
              exact if_pos hse
            rw [heq]
            refine ⟨inv_of_wm_eq s _ false m.id ghost hwmeq hinv, hgm, ?_⟩
            show (akeys acc.wmessages.entries).Nodup
            exact hndacc
          · have heq : on_message s m env =
                ({ s with
                    wmessages := acc.wmessages.insert m.id m.id
                    message_cache := s.message_cache.insert m.id
                      (acc.sent ++ [(m.channelId, m)]) },
                  acc.effects, false) := by
              simp only [on_message]
              rw [if_neg hwk, if_neg hie, hfl]
              exact if_neg hse
            rw [heq]
            refine ⟨?_, FIFOCache.insert_nodup _ _ _ hgm,
              FIFOCache.insert_nodup _ _ _ hndacc⟩
            intro k o hk
            have hmid : o = m.id →
                ((({ s with
                    wmessages := acc.wmessages.insert m.id m.id
                    message_cache := s.message_cache.insert m.id
                      (acc.sent ++ [(m.channelId, m)]) } :
                  EngineState)).message_cache.lookup o).isSome = true := by
              intro ho
              rw [ho]
              show ((s.message_cache.insert m.id
                (acc.sent ++ [(m.channelId, m)])).lookup m.id).isSome = true
              rw [FIFOCache.lookup_insert_self]
              rfl
            rcases FIFOCache.insert_lookup_sub acc.wmessages k m.id m.id o
                hndacc hk with ⟨_, ho⟩ | h2
            · exact Or.inl (hmid ho)
            · rcases hsub k o h2 with h3 | h3
              · rcases hinv k o h3 with h4 | h4
                · rcases removed_or_present s _ o h4 with h5 | h5
                  · exact Or.inl h5
                  · exact Or.inr (mem_ghostStep_of_removed _ _ _ _ ghost o h5)
                · exact Or.inr (mem_ghostStep_of_mem _ _ _ _ ghost o h4)
              · exact Or.inl (hmid h3)

theorem stepEvent_inv (s : EngineState) (e : Event) (ghost : List Nat)
    (hg : goodState s) (hinv : revFwdInv s ghost) :
    revFwdInv (stepEvent s e).1
      (ghostStep s (stepEvent s e).1 (stepEvent s e).2.1
        (stepEvent s e).2.2 ghost) ∧
    goodState (stepEvent s e).1 := by
  cases e with
  | msgEv m env => exact on_message_inv s m env ghost hg hinv
  | editEv b a env =>
    exact ⟨inv_of_wm_eq s _ false 0 ghost (on_message_edit_wm s b a env) hinv,
      on_message_edit_good s b a env hg⟩
  | delEv m env =>
    exact ⟨inv_of_wm_eq s _ false 0 ghost (on_message_delete_wm s m env) hinv,
      on_message_delete_good s m env hg⟩
  | reactEv ev env =>
    have hst : (stepEvent s (Event.reactEv ev env)).1 = s := by
      show (on_reaction_add s ev env).1 = s
      rw [on_reaction_add_state]
    refine ⟨inv_of_wm_eq s _ false 0 ghost (by rw [hst]) hinv, ?_⟩
    rw [hst]
    exact hg
  | reloadEv f he =>
    have h1 : (stepEvent s (Event.reloadEv f he)).1.message_cache =
        s.message_cache := (reload_links_caches s f he).1
    have h2 : (stepEvent s (Event.reloadEv f he)).1.wmessages =
        s.wmessages := (reload_links_caches s f he).2
    refine ⟨inv_of_wm_eq s _ false 0 ghost h2 hinv, ?_, ?_⟩
    · rw [h1]
      exact hg.1
    · rw [h2]
      exact hg.2

theorem runEvents_inv (events : List Event) :
    ∀ (s : EngineState) (ghost : List Nat), goodState s → revFwdInv s ghost →
    revFwdInv (runEvents s ghost events).1 (runEvents s ghost events).2 ∧
    goodState (runEvents s ghost events).1 := by
  induction events with
  | nil => intro s ghost hg hinv; exact ⟨hinv, hg⟩
  | cons e rest ih =>
    intro s ghost hg hinv
    have hstep := stepEvent_inv s e ghost hg hinv
    cases hse : stepEvent s e with
    | mk s2 p =>
      cases p with
      | mk ab oid =>
        rw [hse] at hstep
        simp only [runEvents, hse]
        exact ih s2 (ghostStep s s2 ab oid ghost) hstep.2 hstep.1

/-- Concrete event traces for the reverse-index invariant: load one link
with channels 100 and 200, fan a message out, then delete the origin. -/
def exTracePrefix : List Event :=
  [Event.reloadEv (some [(1, 100), (1, 200)]) (fun c => some c),
    Event.msgEv exOrig [SendOutcome.ok exW1]]

def exTrace : List Event :=
  exTracePrefix ++ [Event.delEv exOrig (fun _ => true)]

/-- C4 counterexample: after a fan-out followed by a delete of the origin,
the reverse index still holds the copy id 20 mapping to origin 10, but the
forward cache has no entry for 10.  The forward entry was removed by the
delete handler, not by capacity eviction: the forward cache has capacity 200
and held at most one entry at every point of the trace. -/
theorem c4_counterexample :
    (runEvents initState [] exTrace).1.wmessages.lookup 20 = some 10 ∧
    (runEvents initState [] exTrace).1.wmessages.lookup 10 = some 10 ∧
    (runEvents initState [] exTrace).1.message_cache.lookup 10 = none ∧
    (runEvents initState [] exTrace).1.message_cache.maxsize = 200 ∧
    (runEvents initState [] exTrace).1.message_cache.entries.length = 0 ∧
    (runEvents initState [] exTracePrefix).1.message_cache.entries.length = 1 ∧
    (runEvents initState []
      [Event.reloadEv (some [(1, 100), (1, 200)])
        (fun c => some c)]).1.message_cache.entries.length = 0 := by
  refine ⟨rfl, rfl, rfl, rfl, rfl, rfl, rfl⟩

/-- C4 amended: after any sequence of handler executions starting from the
initial state, every message id present in the reverse index has a
corresponding entry in the forward cache under its origin id, unless that
forward entry was removed by a later step (capacity eviction or the delete
handler popping it, both recorded in the ghost list) or was never recorded
because the fan-out that created the reverse entry aborted on a failed
post. -/
theorem c4_reverse_index_invariant (events : List Event) (k o : Nat)
    (h : (runEvents initState [] events).1.wmessages.lookup k = some o) :
    ((runEvents initState [] events).1.message_cache.lookup o).isSome = true ∨
      o ∈ (runEvents initState [] events).2 := by
  have hinv0 : revFwdInv initState [] := by
    intro k2 o2 hk2
    simp [initState, FIFOCache.lookup, alookup] at hk2
  exact (runEvents_inv events initState []
    ⟨List.nodup_nil, List.nodup_nil⟩ hinv0).1 k o h

/-- C4 amended witness: on the delete-free prefix trace the reverse entry
for copy 20 is backed by a live forward entry for origin 10. -/
theorem c4_reverse_index_invariant_witness :
    ((runEvents initState []
      exTracePrefix).1.message_cache.lookup 10).isSome = true ∨
      10 ∈ (runEvents initState [] exTracePrefix).2 :=
  c4_reverse_index_invariant exTracePrefix 20 10 (by decide)
